import Mathlib

/-!
Verification of the grid layout engine of vue-layout-grid-modern.

The repository ships the Vue-facing layers (`GridLayout.vue`, `GridItem.vue`,
`useGridLayout.ts`, `useResponsiveLayout.ts`); the pure engine under
`src/core/` (layout, compactors, responsive, constraints) is imported by
those files but its sources are not part of this checkout.  Definitions for
the missing engine are therefore modelled from the specification (spec.md),
as marked on each such definition; everything else is translated directly
from the repository sources.

Machine numbers are modelled as `Int` (the TS code only ever manipulates
integral grid coordinates here), strings as `String`, optional fields as
`Option`.
-/

set_option maxHeartbeats 1000000
set_option maxRecDepth 8000

/-- A layout item, translated from the `LayoutItem` type of the data model
(spec §3): identifier, grid coordinates, size, optional size bounds, the
`static` flag, optional per-item draggable/resizable overrides, and the
transient `moved` scratch flag. -/
structure LayoutItem where
  i : String
  x : Int
  y : Int
  w : Int
  h : Int
  minW : Option Int
  maxW : Option Int
  minH : Option Int
  maxH : Option Int
  static : Bool
  isDraggable : Option Bool
  isResizable : Option Bool
  moved : Bool
deriving Repr, DecidableEq

/-- Helper to build a plain item: no size bounds, not static, no per-item
overrides, `moved` clear. -/
def mkItem (i : String) (x y w h : Int) : LayoutItem :=
  ⟨i, x, y, w, h, none, none, none, none, false, none, none, false⟩

/-- Compaction axis selector (`vertical`, `horizontal`, `none`), as in the
compactor strategy of spec §4.2 and the `getCompactor` API. -/
inductive CompactType where
  | vertical
  | horizontal
  | nothing
deriving Repr, DecidableEq

/-- The `clamp(value, min, max)` helper that underlies all bounds logic
(spec §4.5). -/
def clampInt (v lo hi : Int) : Int := max lo (min v hi)

/-- Modelled from the spec: `collides` of `src/core/layout` is not in the
repository.  Axis-aligned half-open box overlap (spec §4.1): items with the
same id never collide, zero-area items never collide, otherwise the boxes
`[x, x+w) × [y, y+h)` must intersect. -/
def collides (a b : LayoutItem) : Bool :=
  if a.i = b.i then false
  else if a.w ≤ 0 || a.h ≤ 0 || b.w ≤ 0 || b.h ≤ 0 then false
  else a.x < b.x + b.w && b.x < a.x + a.w && a.y < b.y + b.h && b.y < a.y + a.h

/-- Modelled from the spec: `getFirstCollision` of `src/core/layout` is not
in the repository.  Scans the layout in order and returns the first item
colliding with the probe (spec §4.1). -/
def getFirstCollision (L : List LayoutItem) (it : LayoutItem) : Option LayoutItem :=
  L.find? (fun o => collides o it)

/-- Modelled from the spec: `getAllCollisions` of `src/core/layout` is not
in the repository.  Returns every item colliding with the probe (spec §4.1). -/
def getAllCollisions (L : List LayoutItem) (it : LayoutItem) : List LayoutItem :=
  L.filter (fun o => collides o it)

/-- Modelled from the spec: `cloneLayoutItem` of `src/core/layout` is not in
the repository.  Field-by-field copy of an item (value identity here). -/
def cloneLayoutItem (it : LayoutItem) : LayoutItem :=
  ⟨it.i, it.x, it.y, it.w, it.h, it.minW, it.maxW, it.minH, it.maxH,
   it.static, it.isDraggable, it.isResizable, it.moved⟩

/-- Modelled from the spec: `cloneLayout` of `src/core/layout` is not in the
repository.  Copies every item of a layout. -/
def cloneLayout (L : List LayoutItem) : List LayoutItem :=
  L.map cloneLayoutItem

/-- Modelled from the spec: `getLayoutItem` of `src/core/layout` is not in
the repository.  Lookup of an item by id, an absent id being signalled by a
"not found" result (spec §7). -/
def getLayoutItem (L : List LayoutItem) (id : String) : Option LayoutItem :=
  L.find? (fun o => o.i = id)

/-! ## The vertical compactor (spec §4.2), modelled from the spec

`src/core/compactors` is not in the repository.  The vertical strategy
sorts by `(y, x)` ascending with ties broken by array order (a stable
insertion sort below), then pulls each non-static item toward `y = 0` until
it would collide with a previously placed item (static items being placed
from the start) and otherwise places it just below the obstacle's trailing
edge.  The transient `moved` flag is reset at the start of the call
(spec §5) and the output keeps the input's array order. -/

/-- Sort key order for vertical compaction: by `y` then `x`, ascending. -/
def ordYX (a b : LayoutItem) : Bool :=
  a.y < b.y || (a.y = b.y && a.x ≤ b.x)

/-- Stable insertion of one item before the first element it precedes. -/
def insertSorted (a : LayoutItem) : List LayoutItem → List LayoutItem
  | [] => [a]
  | b :: rest => if ordYX a b then a :: b :: rest else b :: insertSorted a rest

/-- Stable insertion sort by `(y, x)` ascending. -/
def sortLayout : List LayoutItem → List LayoutItem
  | [] => []
  | a :: rest => insertSorted a (sortLayout rest)

/-- Modelled from the spec: `getStatics` of `src/core/layout` is not in the
repository.  The static items of a layout, in array order. -/
def getStatics (L : List LayoutItem) : List LayoutItem :=
  L.filter (fun o => o.static)

/-- One-unit upward descent of the compaction pass: while `y > 0` and the
position one unit up does not collide with any placed item, move up.  The
fuel is the starting `y` itself (the descent can take at most `y` steps). -/
def moveUpY (placed : List LayoutItem) (it : LayoutItem) : Nat → Int
  | 0 => it.y
  | fuel + 1 =>
    if it.y > 0 && !(placed.any (fun o => collides o {it with y := it.y - 1})) then
      moveUpY placed {it with y := it.y - 1} fuel
    else it.y

/-- Push-down step of the compaction pass: while the item collides with a
placed item, place it immediately below that obstacle's trailing edge
(`y = obstacle.y + obstacle.h`).  Each iteration strictly increases `y`, so
`placed.length` steps of fuel always suffice. -/
def pushDownY (placed : List LayoutItem) (it : LayoutItem) : Nat → Int
  | 0 => it.y
  | fuel + 1 =>
    match placed.find? (fun o => collides o it) with
    | none => it.y
    | some o => pushDownY placed {it with y := o.y + o.h} fuel

/-- Final `y` of one item of the compaction pass: descend toward the leading
edge, then resolve any remaining overlap by pushing below the obstacles. -/
def compactItemY (placed : List LayoutItem) (it : LayoutItem) : Int :=
  let y1 := moveUpY placed it it.y.toNat
  pushDownY placed {it with y := y1} placed.length

/-- Compaction of a single item: only its `y` coordinate changes. -/
def compactItem (placed : List LayoutItem) (it : LayoutItem) : LayoutItem :=
  {it with y := compactItemY placed it}

/-- The compaction pass over the sorted items: static items are skipped (they
are already obstacles), each non-static item is compacted against the placed
items and then becomes an obstacle itself.  Returns the processed non-static
items in processing order. -/
def compactPass (placed : List LayoutItem) : List LayoutItem → List LayoutItem
  | [] => []
  | it :: rest =>
    if it.static then compactPass placed rest
    else
      let c := compactItem placed it
      c :: compactPass (placed ++ [c]) rest

/-- Clear the transient `moved` flag of an item (spec §5: the flag is reset
at the start of each compaction call). -/
def clearMoved (it : LayoutItem) : LayoutItem :=
  {it with moved := false}

/-- Modelled from the spec: `compact` of the vertical compactor
(`src/core/compactors` is not in the repository), per spec §4.2.  The
`moved` flags are reset, static items are obstacles from the start, the
non-static items are processed in stable `(y, x)` order, and the result is
rebuilt in the input's array order (ids are unique within a layout, spec §3)
by looking each non-static item's processed version up by id. -/
def compactFinish (processed : List LayoutItem) (it : LayoutItem) : LayoutItem :=
  if it.static then it
  else ((processed.find? (fun p => p.i = it.i)).getD it)

/-- Modelled from the spec: `compact` of the vertical compactor, assembled
from the pieces above.  The column count does not enter the vertical
strategy; the parameter is kept for the `compact(layout, cols)` signature. -/
def compact (L : List LayoutItem) (cols : Int) : List LayoutItem :=
  let L0 := L.map clearMoved
  let _ := cols
  L0.map (compactFinish (compactPass (getStatics L0) (sortLayout L0)))

/-- A compactor strategy record: axis, overlap toggle, optional collision
prevention hint, and the compaction function itself (the `Compactor`
interface used by the components). -/
structure Compactor where
  type : CompactType
  allowOverlap : Bool
  preventCollision : Option Bool
  compact : List LayoutItem → Int → List LayoutItem

/-- Modelled from the spec: the default `verticalCompactor` of
`src/core/compactors`. -/
def verticalCompactor : Compactor :=
  ⟨CompactType.vertical, false, none, compact⟩

/-- Modelled from the spec: `correctBounds` of `src/core/layout` is not in
the repository.  Per spec §4.4: clamp `w` to `[1, cols]`, `h` to `≥ 1`, and
`x` to `[0, cols - w]` (shrinking `x` rather than `w`); static items are
corrected only against grid bounds, exactly like the others, never against
occupancy. -/
def correctItem (cols : Int) (it : LayoutItem) : LayoutItem :=
  let w := clampInt it.w 1 cols
  let h := max it.h 1
  let x := clampInt it.x 0 (cols - w)
  {it with x := x, w := w, h := h}

/-- Bounds correction of a whole layout: `correctItem` applied to every
item. -/
def correctBounds (L : List LayoutItem) (cols : Int) : List LayoutItem :=
  L.map (correctItem cols)

/-! ## The move/resize engine (spec §4.3), modelled from the spec

`src/core/layout`'s `moveElement` and `resizeElement` are not in the
repository.  The displacement cascade resolves each colliding item by
pushing it one step further along the compaction axis (down for vertical,
right for horizontal) and re-checking the displaced item, an item being
displaced at most once per call (the `moved` flag guard of spec §4.3);
fuel bounds the recursion, as the spec requires termination in at most
one displacement per item. -/

/-- One displacement step along the compaction axis: down for vertical,
right for horizontal, marking the item as moved for this call. -/
def axisStep (ct : CompactType) (it : LayoutItem) : LayoutItem :=
  match ct with
  | CompactType.horizontal => {it with x := it.x + 1, moved := true}
  | _ => {it with y := it.y + 1, moved := true}

/-- Displace the first item satisfying the predicate, in place in the
layout; returns the displaced item and the updated layout. -/
def displaceFirst (ct : CompactType) (p : LayoutItem → Bool) :
    List LayoutItem → Option (LayoutItem × List LayoutItem)
  | [] => none
  | o :: rest =>
    if p o then some (axisStep ct o, axisStep ct o :: rest)
    else (displaceFirst ct p rest).map (fun r => (r.1, o :: r.2))

/-- The displacement work loop: for each item on the work list, find a
non-static, not-yet-moved collider, push it one step along the axis, and
queue both for re-checking.  The `moved` guard makes every item move at
most once per call, so the generous fuel below is never exhausted. -/
def resolveWork (ct : CompactType) : Nat → List LayoutItem → List LayoutItem → List LayoutItem
  | 0, ly, _ => ly
  | _ + 1, ly, [] => ly
  | fuel + 1, ly, it :: work =>
    match displaceFirst ct (fun o => collides o it && !o.static && !o.moved) ly with
    | none => resolveWork ct fuel ly work
    | some r => resolveWork ct fuel r.2 (it :: work ++ [r.1])

/-- Modelled from the spec: `moveElement` of `src/core/layout`
(spec §4.3).  A static item is never moved; `newX` is clamped to
`[0, cols - w]`; with `preventCollision` and overlap not allowed an
occupied target rejects the move; otherwise the item is placed and the
displacement cascade resolves the collisions (skipped entirely when
overlap is allowed). -/
def moveElement (layout : List LayoutItem) (itm : LayoutItem) (newX newY : Int)
    (isUserAction preventCollision : Bool) (ct : CompactType) (cols : Int)
    (allowOverlap : Bool) : List LayoutItem :=
  if itm.static then layout else
  let _ := isUserAction
  let x := clampInt newX 0 (cols - itm.w)
  let target : LayoutItem := {itm with x := x, y := newY, moved := true}
  if preventCollision && !allowOverlap && layout.any (fun o => collides o target) then
    layout
  else
    let placedLayout := layout.map (fun o => if o.i = itm.i then target else o)
    if allowOverlap then placedLayout
    else resolveWork ct ((layout.length + 1) * (layout.length + 1)) placedLayout [target]

/-- Clamp a proposed size to an item's optional min/max bounds. -/
def clampOpt (v : Int) (lo hi : Option Int) : Int :=
  min ((max v (lo.getD v))) (hi.getD (max v (lo.getD v)))

/-- The updated item of a resize: the proposed size clamped to the item's
min/max bounds (spec §4.3 `resizeElement`), the position taken from the
caller-supplied leading-edge adjustments when present. -/
def resizedItem (itm : LayoutItem) (newW newH : Int) (newX newY : Option Int) : LayoutItem :=
  {itm with
    w := clampOpt newW itm.minW itm.maxW,
    h := clampOpt newH itm.minH itm.maxH,
    x := newX.getD itm.x,
    y := newY.getD itm.y,
    moved := true}

/-- Modelled from the spec: `resizeElement` of `src/core/layout`
(spec §4.3): identical displacement semantics to `moveElement`, but the
proposed width/height are first clamped to the item's min/max bounds and
the caller-supplied `newX`/`newY` adjust the position when the active
handle moves a leading edge. -/
def resizeElement (layout : List LayoutItem) (itm : LayoutItem) (newW newH : Int)
    (newX newY : Option Int) (isUserAction preventCollision : Bool) (ct : CompactType)
    (cols : Int) (allowOverlap : Bool) : List LayoutItem :=
  if itm.static then layout else
  let _ := isUserAction
  let _ := cols
  let target := resizedItem itm newW newH newX newY
  if preventCollision && !allowOverlap && layout.any (fun o => collides o target) then
    layout
  else
    let placedLayout := layout.map (fun o => if o.i = itm.i then target else o)
    if allowOverlap then placedLayout
    else resolveWork ct ((layout.length + 1) * (layout.length + 1)) placedLayout [target]

/-! ## The responsive resolver (spec §4.7), modelled from the spec

`src/core/responsive` is not in the repository.  Breakpoint tables are
association lists from breakpoint name to min-width (or to column count),
and the per-breakpoint layouts an association list from name to layout. -/

/-- Among the entries with min-width at most the target width, the one with
the largest min-width (earlier entries win ties). -/
def largestLE (width : Int) : List (String × Int) → Option (String × Int)
  | [] => none
  | p :: rest =>
    match largestLE width rest with
    | none => if p.2 ≤ width then some p else none
    | some q => if p.2 ≤ width ∧ q.2 ≤ p.2 then some p else some q

/-- The entry with the smallest min-width (earlier entries win ties). -/
def smallestBp : List (String × Int) → Option (String × Int)
  | [] => none
  | p :: rest =>
    match smallestBp rest with
    | none => some p
    | some q => if p.2 ≤ q.2 then some p else some q

/-- Modelled from the spec: `getBreakpointFromWidth` of
`src/core/responsive` (spec §4.7): among breakpoints whose min-width is at
most the target width pick the one with the largest min-width, and when
none qualifies use the breakpoint with the smallest min-width; an empty
breakpoint table has no answer (the fatal configuration of spec §7). -/
def getBreakpointFromWidth (bps : List (String × Int)) (width : Int) : Option String :=
  match largestLE width bps with
  | some p => some p.1
  | none => (smallestBp bps).map (fun p => p.1)

/-- Modelled from the spec: `getColsFromBreakpoint` of
`src/core/responsive`; a breakpoint absent from the column table is the
fatal configuration error of spec §7, surfaced here as `none`. -/
def getColsFromBreakpoint (bp : String) (colsMap : List (String × Int)) : Option Int :=
  (colsMap.find? (fun p => p.1 = bp)).map (fun p => p.2)

/-- Modelled from the spec: `sortBreakpoints` of `src/core/responsive`:
breakpoint names sorted by ascending min-width (stable insertion sort). -/
def sortBreakpoints (bps : List (String × Int)) : List String :=
  let rec ins (p : String × Int) : List (String × Int) → List (String × Int)
    | [] => [p]
    | q :: rest => if p.2 ≤ q.2 then p :: q :: rest else q :: ins p rest
  let rec srt : List (String × Int) → List (String × Int)
    | [] => []
    | p :: rest => ins p (srt rest)
  (srt bps).map (fun p => p.1)

/-- Rounding division on integers, as JavaScript `Math.round(a / b)` for a
positive divisor: the floor of `a / b + 1/2`. -/
def roundDiv (a b : Int) : Int :=
  if b ≤ 0 then a else Int.ediv (2 * a + b) (2 * b)

/-- Modelled from the spec: `findOrGenerateResponsiveLayout` of
`src/core/responsive` (spec §4.7): a stored layout for the target
breakpoint is used after bounds correction and compaction; otherwise one is
derived from the previous breakpoint's layout by scaling `x` and `w`
proportionally (`round(old × newCols/oldCols)`, `w` clamped to
`[1, newCols]`), followed by bounds correction and compaction.  The column
count of the previous breakpoint, which the spec's scaling formula needs,
is passed explicitly. -/
def findOrGenerateResponsiveLayout (layouts : List (String × List LayoutItem))
    (bp lastBp : String) (newCols oldCols : Int) (comp : Compactor) : List LayoutItem :=
  match (layouts.find? (fun p => p.1 = bp)).map (fun p => p.2) with
  | some stored => comp.compact (correctBounds (cloneLayout stored) newCols) newCols
  | none =>
    let base := ((layouts.find? (fun p => p.1 = lastBp)).map (fun p => p.2)).getD []
    let scaled := base.map (fun it =>
      {it with
        x := roundDiv (it.x * newCols) oldCols,
        w := clampInt (roundDiv (it.w * newCols) oldCols) 1 newCols})
    comp.compact (correctBounds scaled newCols) newCols

/-! ## The `useGridLayout` composable (src/src/composables/useGridLayout.ts)

State and handlers translated from the source; reactive refs become the
explicit state record below, a handler maps a state to the next state (and
its return value where the source returns one). -/

/-- Drag state of the composable (`DragState` of useGridLayout.ts). -/
structure DragState where
  activeDrag : Option LayoutItem
  oldDragItem : Option LayoutItem
  oldLayout : Option (List LayoutItem)
deriving Repr, DecidableEq

/-- Resize state of the composable (`ResizeState` of useGridLayout.ts). -/
structure ResizeState where
  resizing : Bool
  oldResizeItem : Option LayoutItem
  oldLayout : Option (List LayoutItem)
deriving Repr, DecidableEq

/-- The options the composable closes over: column count, collision
prevention, and the compactor (default `verticalCompactor`). -/
structure UGLConfig where
  cols : Int
  preventCollision : Bool
  compactor : Compactor

/-- The reactive state of `useGridLayout`. -/
structure UGLState where
  layout : List LayoutItem
  dragState : DragState
  resizeState : ResizeState
  isDragging : Bool

/-- `initializeLayout` of useGridLayout.ts (lines 171-176): bounds
correction followed by compaction. -/
def UGL.initializeLayout (cfg : UGLConfig) (inputLayout : List LayoutItem) : List LayoutItem :=
  cfg.compactor.compact (correctBounds (cloneLayout inputLayout) cfg.cols) cfg.cols

/-- `onDragStart` of useGridLayout.ts (lines 237-262): an unknown id
returns `none` and leaves the state untouched; otherwise the placeholder is
stored in the drag state (never in the layout) and returned. -/
def UGL.onDragStart (st : UGLState) (itemId : String) (x y : Int) :
    UGLState × Option LayoutItem :=
  match getLayoutItem st.layout itemId with
  | none => (st, none)
  | some item =>
    let placeholder :=
      {cloneLayoutItem item with x := x, y := y, static := false, moved := false}
    ({st with
        isDragging := true,
        dragState :=
          ⟨some placeholder, some (cloneLayoutItem item), some (cloneLayout st.layout)⟩},
     some placeholder)

/-- `onDrag` of useGridLayout.ts (lines 264-292): move the element, then
compact, then commit. -/
def UGL.onDrag (cfg : UGLConfig) (st : UGLState) (itemId : String) (x y : Int) : UGLState :=
  match getLayoutItem st.layout itemId with
  | none => st
  | some item =>
    let ds :=
      match st.dragState.activeDrag with
      | some ad => {st.dragState with activeDrag := some {ad with x := x, y := y}}
      | none => st.dragState
    let newLayout := moveElement st.layout item x y true cfg.preventCollision
      cfg.compactor.type cfg.cols cfg.compactor.allowOverlap
    let compacted := cfg.compactor.compact newLayout cfg.cols
    {st with dragState := ds, layout := compacted}

/-- `onDragStop` of useGridLayout.ts (lines 294-323): final move, compact,
clear the drag state, commit. -/
def UGL.onDragStop (cfg : UGLConfig) (st : UGLState) (itemId : String) (x y : Int) : UGLState :=
  match getLayoutItem st.layout itemId with
  | none => st
  | some item =>
    let newLayout := moveElement st.layout item x y true cfg.preventCollision
      cfg.compactor.type cfg.cols cfg.compactor.allowOverlap
    let compacted := cfg.compactor.compact newLayout cfg.cols
    {st with
      isDragging := false,
      dragState := ⟨none, none, none⟩,
      layout := compacted}

/-- `onResizeStart` of useGridLayout.ts (lines 329-340): an unknown id
returns `none` and leaves the state untouched. -/
def UGL.onResizeStart (st : UGLState) (itemId : String) : UGLState × Option LayoutItem :=
  match getLayoutItem st.layout itemId with
  | none => (st, none)
  | some item =>
    ({st with
        resizeState := ⟨true, some (cloneLayoutItem item), some (cloneLayout st.layout)⟩},
     some item)

/-- `onResize` of useGridLayout.ts (lines 342-368): the proposed `w`, `h`
(and optional `x`, `y`) are written onto the item as given, then the layout
is bounds-corrected and compacted. -/
def UGL.onResize (cfg : UGLConfig) (st : UGLState) (itemId : String) (w h : Int)
    (x y : Option Int) : UGLState :=
  let newLayout := st.layout.map (fun item =>
    if item.i = itemId then
      {item with w := w, h := h, x := x.getD item.x, y := y.getD item.y}
    else item)
  let corrected := correctBounds newLayout cfg.cols
  let compacted := cfg.compactor.compact corrected cfg.cols
  {st with layout := compacted}

/-- `onResizeStop` of useGridLayout.ts (lines 370-379): a final
`onResize` without position adjustments, then the resize state is cleared. -/
def UGL.onResizeStop (cfg : UGLConfig) (st : UGLState) (itemId : String) (w h : Int) : UGLState :=
  let st1 := UGL.onResize cfg st itemId w h none none
  {st1 with resizeState := ⟨false, none, none⟩}

/-! ## The `GridLayout.vue` component (src/src/components/GridLayout.vue)

The component's reactive state becomes the record below; each handler maps
a state to the next state together with the list of events it emits, in
emission order.  Only the event payloads the claims are about are kept
(the DOM event and node arguments of the gesture layer are outside the
modelled core, spec §6). -/

/-- The resolved configuration the component reads: column count, the
effective compactor, and the ambient drag/resize enable policies. -/
structure GLConfig where
  cols : Int
  compactor : Compactor
  dragEnabled : Bool
  resizeEnabled : Bool

/-- The internal state of `GridLayout.vue`. -/
structure GLState where
  internalLayout : List LayoutItem
  activeDrag : Option LayoutItem
  oldDragItem : Option LayoutItem
  oldLayout : Option (List LayoutItem)
  resizingItem : Bool
  isDragging : Bool

/-- The events `GridLayout.vue` emits that the claims are about. -/
inductive GLEvent where
  | updateLayout (layout : List LayoutItem)
  | layoutChange (layout : List LayoutItem)
  | dragStart (layout : List LayoutItem) (item : LayoutItem)
  | drag (layout : List LayoutItem) (oldItem : Option LayoutItem) (item : LayoutItem)
      (placeholder : Option LayoutItem)
  | dragStop (layout : List LayoutItem) (oldItem : Option LayoutItem) (item : LayoutItem)
  | resize (layout : List LayoutItem) (oldItem : Option LayoutItem) (item : Option LayoutItem)
deriving Repr, DecidableEq

/-- `isItemDraggable` of GridLayout.vue (lines 205-209): static wins, then
the per-item boolean override, then the ambient drag policy. -/
def isItemDraggable (cfg : GLConfig) (item : LayoutItem) : Bool :=
  if item.static then false
  else
    match item.isDraggable with
    | some b => b
    | none => cfg.dragEnabled

/-- `isItemResizable` of GridLayout.vue (lines 211-215): static wins, then
the per-item boolean override, then the ambient resize policy. -/
def isItemResizable (cfg : GLConfig) (item : LayoutItem) : Bool :=
  if item.static then false
  else
    match item.isResizable with
    | some b => b
    | none => cfg.resizeEnabled

/-- The resize handle axes (`ResizeHandleAxis`). -/
inductive ResizeHandle where
  | s
  | w
  | e
  | n
  | sw
  | nw
  | se
  | ne
deriving Repr, DecidableEq

/-- `calculateResizePosition` of GridLayout.vue (lines 222-244): west
handles move `x` opposite the width change, north handles move `y`
opposite the height change, all other handles leave the coordinates
undefined. -/
def calculateResizePosition (item : LayoutItem) (newW newH : Int) (handle : ResizeHandle) :
    Option Int × Option Int :=
  let x :=
    if handle = ResizeHandle.w || handle = ResizeHandle.nw || handle = ResizeHandle.sw then
      some (item.x - (newW - item.w))
    else none
  let y :=
    if handle = ResizeHandle.n || handle = ResizeHandle.nw || handle = ResizeHandle.ne then
      some (item.y - (newH - item.h))
    else none
  (x, y)

/-- `synchronizeLayout` of GridLayout.vue (lines 137-142): bounds
correction followed by compaction with the configured column count. -/
def synchronizeLayout (comp : Compactor) (cols : Int) (inputLayout : List LayoutItem) :
    List LayoutItem :=
  comp.compact (correctBounds (cloneLayout inputLayout) cols) cols

/-- `onDragStart` of GridLayout.vue (lines 265-288): the transient
placeholder (an object holding only `w,h,x,y,i`, modelled with the plain
defaults of `mkItem`) goes into `activeDrag`, never into the layout. -/
def GL.onDragStart (st : GLState) (i : String) : GLState × List GLEvent :=
  match getLayoutItem st.internalLayout i with
  | none => (st, [])
  | some l =>
    ({st with
        isDragging := true,
        oldDragItem := some (cloneLayoutItem l),
        oldLayout := some (cloneLayout st.internalLayout),
        activeDrag := some (mkItem l.i l.x l.y l.w l.h)},
     [GLEvent.dragStart st.internalLayout l])

/-- `onDrag` of GridLayout.vue (lines 290-322): placeholder follows the
pointer, the element is moved, the layout compacted and committed. -/
def GL.onDrag (cfg : GLConfig) (st : GLState) (i : String) (x y : Int) :
    GLState × List GLEvent :=
  match getLayoutItem st.internalLayout i with
  | none => (st, [])
  | some l =>
    let ad := st.activeDrag.map (fun a => {a with x := x, y := y})
    let newLayout := moveElement st.internalLayout l x y true
      (cfg.compactor.preventCollision.getD false) cfg.compactor.type cfg.cols
      cfg.compactor.allowOverlap
    let compacted := cfg.compactor.compact newLayout cfg.cols
    ({st with activeDrag := ad, internalLayout := compacted},
     [GLEvent.drag compacted st.oldDragItem l ad])

/-- `onDragStop` of GridLayout.vue (lines 324-367): the final layout is the
compacted move result; `update:layout`/`layoutChange` fire when it differs
from the layout the drag started from; the drag state is cleared. -/
def GL.onDragStop (cfg : GLConfig) (st : GLState) (i : String) (x y : Int) :
    GLState × List GLEvent :=
  match st.activeDrag with
  | none => (st, [])
  | some _ =>
    match getLayoutItem st.internalLayout i with
    | none => (st, [])
    | some l =>
      let newLayout := moveElement st.internalLayout l x y true
        (cfg.compactor.preventCollision.getD false) cfg.compactor.type cfg.cols
        cfg.compactor.allowOverlap
      let finalLayout := cfg.compactor.compact newLayout cfg.cols
      let changeEvents :=
        match st.oldLayout with
        | some old =>
          if old ≠ finalLayout then
            [GLEvent.updateLayout finalLayout, GLEvent.layoutChange finalLayout]
          else []
        | none => []
      ({st with
          isDragging := false,
          activeDrag := none,
          oldDragItem := none,
          oldLayout := none,
          internalLayout := finalLayout},
       GLEvent.dragStop finalLayout st.oldDragItem l :: changeEvents)

/-- `onResize` of GridLayout.vue (lines 397-437): handle-aware position
adjustment, `resizeElement`, bounds correction, compaction, commit. -/
def GL.onResize (cfg : GLConfig) (st : GLState) (i : String) (w h : Int)
    (handle : ResizeHandle) : GLState × List GLEvent :=
  match getLayoutItem st.internalLayout i with
  | none => (st, [])
  | some l =>
    let pos := calculateResizePosition l w h handle
    let newLayout := resizeElement st.internalLayout l w h pos.1 pos.2 true
      (cfg.compactor.preventCollision.getD false) cfg.compactor.type cfg.cols
      cfg.compactor.allowOverlap
    let corrected := correctBounds newLayout cfg.cols
    let compacted := cfg.compactor.compact corrected cfg.cols
    ({st with internalLayout := compacted},
     [GLEvent.resize compacted st.oldDragItem (getLayoutItem compacted i)])

/-! ## The responsive composable and component watchers

`useResponsiveLayout` (src/unnamed/part_001, the useResponsiveLayout.ts
source) and the `ResponsiveGridLayout` script of GridLayout.vue.  Layout
maps (`ResponsiveLayouts`) are association lists; the object-spread update
`\x7b ...m, [k]: v \x7d` becomes `setLayoutEntry`. -/

/-- Replace the binding of a key in an association list, or append it, as
the JS object spread update does. -/
def setLayoutEntry (m : List (String × List LayoutItem)) (k : String)
    (v : List LayoutItem) : List (String × List LayoutItem) :=
  if m.any (fun p => p.1 = k) then m.map (fun p => if p.1 = k then (k, v) else p)
  else m ++ [(k, v)]

/-- The options `useResponsiveLayout` closes over. -/
structure URLConfig where
  breakpoints : List (String × Int)
  colsConfig : List (String × Int)
  compactor : Compactor

/-- The reactive state of `useResponsiveLayout` relevant to its width
watcher: active breakpoint, its column count, the stored layouts, and the
previous width/breakpoint trackers. -/
structure URLState where
  breakpoint : String
  cols : Int
  layouts : List (String × List LayoutItem)
  prevWidth : Int
  prevBreakpoint : String

/-- The callbacks the width watcher of `useResponsiveLayout` invokes (the
margin and padding arguments of `onWidthChange` belong to the rendering
boundary and are not modelled). -/
inductive URLEvent where
  | widthChange (width : Int) (cols : Int)
  | breakpointChange (bp : String) (cols : Int)
deriving Repr, DecidableEq

/-- The width watcher of `useResponsiveLayout` (part_001 lines 246-288):
an unchanged width returns immediately; otherwise the new breakpoint and
column count are derived from the new width, `onWidthChange` always fires,
and only an actual breakpoint change regenerates the layout and updates
breakpoint, cols and layouts (together).  A breakpoint or column-count
lookup with no entry is the fatal configuration error of spec §7,
surfaced as `none`. -/
def URL.widthWatcher (cfg : URLConfig) (st : URLState) (newWidth : Int) :
    Option (URLState × List URLEvent) :=
  if st.prevWidth = newWidth then some (st, [])
  else
    match getBreakpointFromWidth cfg.breakpoints newWidth with
    | none => none
    | some newBreakpoint =>
      match getColsFromBreakpoint newBreakpoint cfg.colsConfig with
      | none => none
      | some newCols =>
        let evs := [URLEvent.widthChange newWidth newCols]
        if newBreakpoint ≠ st.breakpoint then
          let newLayout := findOrGenerateResponsiveLayout st.layouts newBreakpoint
            st.breakpoint newCols st.cols cfg.compactor
          some
            ({breakpoint := newBreakpoint,
              cols := newCols,
              layouts := setLayoutEntry st.layouts newBreakpoint newLayout,
              prevWidth := newWidth,
              prevBreakpoint := newBreakpoint},
             evs ++ [URLEvent.breakpointChange newBreakpoint newCols])
        else some ({st with prevWidth := newWidth}, evs)

/-- The state of the `ResponsiveGridLayout` script of GridLayout.vue
relevant to its width watcher. -/
structure RGLState where
  currentBreakpoint : String
  currentCols : Int
  currentLayout : List LayoutItem
  internalLayouts : List (String × List LayoutItem)
  prevWidth : Int
  prevBreakpointProp : Option String
  prevBreakpoints : List (String × Int)
  prevColsConfig : List (String × Int)

/-- The events the `ResponsiveGridLayout` width watcher emits (the margin
and padding payloads of `widthChange` belong to the rendering boundary and
are not modelled). -/
inductive RGLEvent where
  | breakpointChange (bp : String) (cols : Int)
  | layoutChange (layout : List LayoutItem) (layouts : List (String × List LayoutItem))
  | updateLayouts (layouts : List (String × List LayoutItem))
  | widthChange (width : Int) (cols : Int)
deriving Repr, DecidableEq

/-- The width/breakpoint watcher of `ResponsiveGridLayout`
(GridLayout.vue lines 912-990): when any of width, breakpoint prop,
breakpoints or cols tables changed, resolve the new breakpoint and column
count; on a breakpoint change, preserve the current layout under the old
breakpoint if absent, find-or-generate the new one, pass it through bounds
correction and compaction, store it under the new breakpoint, commit all
state, and emit `breakpointChange`, `layoutChange`, `update:layouts`;
`widthChange` fires in every changed case.  Failed breakpoint/column
lookups surface as `none` (the fatal configuration of spec §7). -/
def RGL.widthWatcher (comp : Compactor) (st : RGLState) (newWidth : Int)
    (newBreakpointProp : Option String) (newBreakpoints newColsConfig : List (String × Int)) :
    Option (RGLState × List RGLEvent) :=
  let widthChanged := newWidth ≠ st.prevWidth
  let breakpointPropChanged := newBreakpointProp ≠ st.prevBreakpointProp
  let breakpointsChanged := newBreakpoints ≠ st.prevBreakpoints
  let colsChanged := newColsConfig ≠ st.prevColsConfig
  if widthChanged || breakpointPropChanged || breakpointsChanged || colsChanged then
    match
      (match newBreakpointProp with
       | some b => some b
       | none => getBreakpointFromWidth newBreakpoints newWidth) with
    | none => none
    | some newBreakpoint =>
      match getColsFromBreakpoint newBreakpoint newColsConfig with
      | none => none
      | some newCols =>
        let lastBreakpoint := st.currentBreakpoint
        if lastBreakpoint ≠ newBreakpoint || breakpointsChanged || colsChanged then
          let preserved :=
            if st.internalLayouts.any (fun p => p.1 = lastBreakpoint) then st.internalLayouts
            else st.internalLayouts ++ [(lastBreakpoint, cloneLayout st.currentLayout)]
          let generated := findOrGenerateResponsiveLayout preserved newBreakpoint
            lastBreakpoint newCols st.currentCols comp
          let newLayout := comp.compact (correctBounds generated newCols) newCols
          let newLayouts := setLayoutEntry preserved newBreakpoint newLayout
          some
            ({currentBreakpoint := newBreakpoint,
              currentCols := newCols,
              currentLayout := newLayout,
              internalLayouts := newLayouts,
              prevWidth := newWidth,
              prevBreakpointProp := newBreakpointProp,
              prevBreakpoints := newBreakpoints,
              prevColsConfig := newColsConfig},
             [RGLEvent.breakpointChange newBreakpoint newCols,
              RGLEvent.layoutChange newLayout newLayouts,
              RGLEvent.updateLayouts newLayouts,
              RGLEvent.widthChange newWidth newCols])
        else
          some
            ({st with
                prevWidth := newWidth,
                prevBreakpointProp := newBreakpointProp,
                prevBreakpoints := newBreakpoints,
                prevColsConfig := newColsConfig},
             [RGLEvent.widthChange newWidth newCols])
  else some (st, [])

/-- A processed item differs from its source only in its `y` coordinate
(the correspondence the compaction pass preserves). -/
def sameButY (a b : LayoutItem) : Prop := b = {a with y := b.y}

/-- A displaced layout keeps every item's id, and an item already marked
moved is left untouched by the displacement cascade. -/
def keepMoved (a b : LayoutItem) : Prop := b.i = a.i ∧ (a.moved = true → b = a)

/-! ## Basic lemmas: the collision test, records, clamping, lists -/

theorem collides_iff (a b : LayoutItem) :
    collides a b = true ↔
      ¬a.i = b.i ∧ 0 < a.w ∧ 0 < a.h ∧ 0 < b.w ∧ 0 < b.h ∧
      a.x < b.x + b.w ∧ b.x < a.x + a.w ∧ a.y < b.y + b.h ∧ b.y < a.y + a.h := by
  unfold collides
  split_ifs with h1 h2
  · simp only [false_iff]
    rintro ⟨hne, _⟩
    exact hne h1
  · simp only [Bool.or_eq_true, decide_eq_true_eq] at h2
    simp only [false_iff]
    rintro ⟨_, hw, hh, hw2, hh2, _⟩
    omega
  · simp only [Bool.or_eq_true, decide_eq_true_eq, not_or, not_le] at h2
    simp only [Bool.and_eq_true, decide_eq_true_eq]
    obtain ⟨⟨⟨p1, p2⟩, p3⟩, p4⟩ := h2
    constructor
    · rintro ⟨⟨⟨h3, h4⟩, h5⟩, h6⟩
      exact ⟨h1, p1, p2, p3, p4, h3, h4, h5, h6⟩
    · rintro ⟨_, _, _, _, _, h3, h4, h5, h6⟩
      exact ⟨⟨⟨h3, h4⟩, h5⟩, h6⟩

theorem collides_self (a : LayoutItem) : collides a a = false := by
  unfold collides
  simp

theorem collides_false_iff (a b : LayoutItem) :
    collides a b = false ↔ ¬(collides a b = true) := by
  cases h : collides a b <;> simp

theorem collides_comm_true (a b : LayoutItem) :
    collides a b = true ↔ collides b a = true := by
  rw [collides_iff, collides_iff]
  constructor <;>
    · rintro ⟨h1, h2, h3, h4, h5, h6, h7, h8, h9⟩
      exact ⟨fun h => h1 h.symm, h4, h5, h2, h3, h7, h6, h9, h8⟩

theorem collides_comm_false (a b : LayoutItem) :
    collides a b = false ↔ collides b a = false := by
  rw [collides_false_iff, collides_false_iff, collides_comm_true]

theorem collides_of_same_id (a b : LayoutItem) (h : a.i = b.i) : collides a b = false := by
  unfold collides
  simp [h]

theorem setY_setY (it : LayoutItem) (v u : Int) :
    ({({it with y := v} : LayoutItem) with y := u} : LayoutItem) = {it with y := u} := rfl

theorem setY_self (it : LayoutItem) : ({it with y := it.y} : LayoutItem) = it := rfl

theorem clearMoved_eq_self (it : LayoutItem) (h : it.moved = false) : clearMoved it = it := by
  cases it
  simp_all [clearMoved]

theorem clampInt_idem (v lo hi : Int) : clampInt (clampInt v lo hi) lo hi = clampInt v lo hi := by
  simp only [clampInt, max_def, min_def]
  split_ifs <;> omega

theorem length_filter_mono {α : Type} {p q : α → Bool} (l : List α)
    (himp : ∀ x ∈ l, p x = true → q x = true) :
    (l.filter p).length ≤ (l.filter q).length := by
  induction l with
  | nil => simp
  | cons b t ih =>
    have ht : ∀ x ∈ t, p x = true → q x = true := fun x hx => himp x (List.mem_cons_of_mem b hx)
    by_cases hb : p b = true
    · rw [List.filter_cons_of_pos hb, List.filter_cons_of_pos (himp b (List.mem_cons_self b t) hb)]
      simpa using ih ht
    · rw [List.filter_cons_of_neg (by simpa using hb)]
      by_cases hqb : q b = true
      · rw [List.filter_cons_of_pos hqb]
        exact le_trans (ih ht) (Nat.le_succ _)
      · rw [List.filter_cons_of_neg (by simpa using hqb)]
        exact ih ht

theorem length_filter_lt {α : Type} {p q : α → Bool} (l : List α) (a : α)
    (ha : a ∈ l) (hqa : q a = true) (hpa : p a = false)
    (himp : ∀ x ∈ l, p x = true → q x = true) :
    (l.filter p).length < (l.filter q).length := by
  induction l with
  | nil => cases ha
  | cons b t ih =>
    have ht : ∀ x ∈ t, p x = true → q x = true := fun x hx => himp x (List.mem_cons_of_mem b hx)
    rcases List.mem_cons.mp ha with rfl | ha'
    · rw [List.filter_cons_of_neg (by simp [hpa]), List.filter_cons_of_pos hqa]
      exact Nat.lt_succ_of_le (length_filter_mono t ht)
    · by_cases hb : p b = true
      · rw [List.filter_cons_of_pos hb, List.filter_cons_of_pos (himp b (List.mem_cons_self b t) hb)]
        simpa using ih ha' ht
      · rw [List.filter_cons_of_neg (by simpa using hb)]
        by_cases hqb : q b = true
        · rw [List.filter_cons_of_pos hqb]
          exact Nat.lt_succ_of_le (Nat.le_of_lt (ih ha' ht))
        · rw [List.filter_cons_of_neg (by simpa using hqb)]
          exact ih ha' ht

theorem find?_unique_by_id (l : List LayoutItem) (hnd : (l.map (fun o => o.i)).Nodup)
    (it : LayoutItem) (hmem : it ∈ l) :
    l.find? (fun p => p.i = it.i) = some it := by
  induction l with
  | nil => cases hmem
  | cons a t ih =>
    simp only [List.map_cons, List.nodup_cons] at hnd
    rcases List.mem_cons.mp hmem with rfl | hmem'
    · rw [List.find?_cons_of_pos]
      simp
    · have hne : ¬(a.i = it.i) := by
        intro h
        exact hnd.1 (h ▸ List.mem_map_of_mem (fun o => o.i) hmem')
      rw [List.find?_cons_of_neg _ (by simpa using hne)]
      exact ih hnd.2 hmem'

theorem mem_eq_of_nodup_ids (l : List LayoutItem) (hnd : (l.map (fun o => o.i)).Nodup)
    {a b : LayoutItem} (ha : a ∈ l) (hb : b ∈ l) (hab : a.i = b.i) : a = b := by
  induction l with
  | nil => cases ha
  | cons c t ih =>
    simp only [List.map_cons, List.nodup_cons] at hnd
    rcases List.mem_cons.mp ha with rfl | ha' <;> rcases List.mem_cons.mp hb with rfl | hb'
    · rfl
    · exact absurd (hab ▸ List.mem_map_of_mem (fun o => o.i) hb') hnd.1
    · exact absurd (hab ▸ List.mem_map_of_mem (fun o => o.i) ha') hnd.1
    · exact ih hnd.2 ha' hb'

/-! ## Lemmas on single-item compaction -/

theorem moveUpY_stay (placed : List LayoutItem) (it : LayoutItem) (fuel : Nat)
    (h : it.y ≤ 0 ∨ ∃ o ∈ placed, collides o {it with y := it.y - 1} = true) :
    moveUpY placed it fuel = it.y := by
  cases fuel with
  | zero => rfl
  | succ n =>
    rw [moveUpY]
    split
    · rename_i hcond
      exfalso
      simp only [Bool.and_eq_true, decide_eq_true_eq, Bool.not_eq_true',
        List.any_eq_false] at hcond
      rcases h with h | ⟨o, ho, hc⟩
      · omega
      · exact absurd hc (by simpa using hcond.2 o ho)
    · rfl

theorem moveUpY_blocked (placed : List LayoutItem) (it : LayoutItem) (fuel : Nat)
    (hfuel : it.y.toNat ≤ fuel) :
    moveUpY placed it fuel ≤ 0 ∨
      ∃ o ∈ placed, collides o {it with y := moveUpY placed it fuel - 1} = true := by
  induction fuel generalizing it with
  | zero =>
    left
    show it.y ≤ 0
    omega
  | succ n ih =>
    rw [moveUpY]
    split
    · rename_i hcond
      simp only [Bool.and_eq_true, decide_eq_true_eq] at hcond
      have hfuel' : ({it with y := it.y - 1} : LayoutItem).y.toNat ≤ n := by
        show (it.y - 1).toNat ≤ n
        omega
      have hres := ih {it with y := it.y - 1} hfuel'
      simpa only [setY_setY] using hres
    · rename_i hcond
      have hcond' : (decide (it.y > 0) &&
          !placed.any (fun o => collides o {it with y := it.y - 1})) = false := by
        simpa using hcond
      cases hb : decide (it.y > 0) with
      | false =>
        left
        have : ¬(it.y > 0) := of_decide_eq_false hb
        omega
      | true =>
        right
        rw [hb, Bool.true_and] at hcond'
        have hany : placed.any (fun o => collides o {it with y := it.y - 1}) = true := by
          simpa using hcond'
        rcases List.any_eq_true.mp hany with ⟨o, ho, hc⟩
        exact ⟨o, ho, hc⟩

theorem moveUpY_free (placed : List LayoutItem) (it : LayoutItem) (fuel : Nat) :
    moveUpY placed it fuel = it.y ∨
      ∀ o ∈ placed, collides o {it with y := moveUpY placed it fuel} = false := by
  induction fuel generalizing it with
  | zero => left; rfl
  | succ n ih =>
    rw [moveUpY]
    split
    · rename_i hcond
      simp only [Bool.and_eq_true, decide_eq_true_eq, Bool.not_eq_true',
        List.any_eq_false] at hcond
      rcases ih {it with y := it.y - 1} with heq | hfree
      · right
        intro o ho
        rw [heq, collides_false_iff]
        have := hcond.2 o ho
        exact this
      · right
        simpa only [setY_setY] using hfree
    · left; rfl

theorem pushDownY_free (placed : List LayoutItem) (it : LayoutItem) (fuel : Nat)
    (h : ∀ o ∈ placed, collides o it = false) :
    pushDownY placed it fuel = it.y := by
  cases fuel with
  | zero => rfl
  | succ n =>
    rw [pushDownY]
    have hnone : placed.find? (fun o => collides o it) = none := by
      rw [List.find?_eq_none]
      intro x hx
      simp [h x hx]
    rw [hnone]

theorem pushDownY_complete (placed : List LayoutItem) (it : LayoutItem) (fuel : Nat)
    (hfuel : (placed.filter (fun o => it.y < o.y + o.h)).length ≤ fuel) :
    ∀ o ∈ placed, collides o {it with y := pushDownY placed it fuel} = false := by
  induction fuel generalizing it with
  | zero =>
    intro o ho
    rw [pushDownY, setY_self]
    rcases hc : collides o it with _ | _
    · rfl
    · exfalso
      have hlt : it.y < o.y + o.h := ((collides_iff o it).mp hc).2.2.2.2.2.2.2.2
      have hmem : o ∈ placed.filter (fun o => it.y < o.y + o.h) :=
        List.mem_filter.mpr ⟨ho, by simpa using hlt⟩
      have := List.length_pos.mpr (List.ne_nil_of_mem hmem)
      omega
  | succ n ih =>
    intro o ho
    rw [pushDownY]
    cases hfind : placed.find? (fun o => collides o it) with
    | none =>
      rw [setY_self, collides_false_iff]
      exact List.find?_eq_none.mp hfind o ho
    | some o0 =>
      have hc0 : collides o0 it = true := by
        have := List.find?_some hfind
        simpa using this
      have ho0 : o0 ∈ placed := List.mem_of_find?_eq_some hfind
      have hlt : it.y < o0.y + o0.h := ((collides_iff o0 it).mp hc0).2.2.2.2.2.2.2.2
      have hstrict :
          (placed.filter (fun o => (o0.y + o0.h : Int) < o.y + o.h)).length <
            (placed.filter (fun o => it.y < o.y + o.h)).length := by
        refine length_filter_lt placed o0 ho0 (by simpa using hlt) (by simp) ?_
        intro x hx hpx
        have : (o0.y + o0.h : Int) < x.y + x.h := by simpa using hpx
        simp only [decide_eq_true_eq]
        omega
      have hmeasure :
          ((placed.filter (fun o =>
            ({it with y := o0.y + o0.h} : LayoutItem).y < o.y + o.h)).length) ≤ n := by
        have : (({it with y := o0.y + o0.h} : LayoutItem)).y = o0.y + o0.h := rfl
        rw [this]
        omega
      have := ih {it with y := o0.y + o0.h} hmeasure o ho
      simpa only [setY_setY] using this

theorem pushDownY_cases (placed : List LayoutItem) (it : LayoutItem) (fuel : Nat) :
    pushDownY placed it fuel = it.y ∨
      ∃ o ∈ placed, pushDownY placed it fuel = o.y + o.h ∧
        collides o {it with y := o.y + o.h - 1} = true := by
  induction fuel generalizing it with
  | zero => left; rfl
  | succ n ih =>
    rw [pushDownY]
    cases hfind : placed.find? (fun o => collides o it) with
    | none => left; rfl
    | some o0 =>
      have hc0 : collides o0 it = true := by
        have := List.find?_some hfind
        simpa using this
      have ho0 : o0 ∈ placed := List.mem_of_find?_eq_some hfind
      rw [collides_iff] at hc0
      obtain ⟨h1, h2, h3, h4, h5, h6, h7, h8, h9⟩ := hc0
      have hstep : collides o0 {it with y := o0.y + o0.h - 1} = true := by
        rw [collides_iff]
        refine ⟨h1, h2, h3, h4, h5, h6, h7, ?_, ?_⟩
        · show o0.y < (o0.y + o0.h - 1) + it.h
          have hh : (0 : Int) < it.h := h5
          omega
        · show (o0.y + o0.h - 1 : Int) < o0.y + o0.h
          omega
      rcases ih {it with y := o0.y + o0.h} with heq | ⟨o1, ho1, heq1, hc1⟩
      · right
        exact ⟨o0, ho0, heq, hstep⟩
      · right
        refine ⟨o1, ho1, heq1, ?_⟩
        simpa only [setY_setY] using hc1

theorem compactItem_free (placed : List LayoutItem) (it : LayoutItem) :
    ∀ o ∈ placed, collides o (compactItem placed it) = false := by
  intro o ho
  have hfuel :
      ((placed.filter (fun o =>
        ({it with y := moveUpY placed it it.y.toNat} : LayoutItem).y < o.y + o.h)).length)
        ≤ placed.length := List.length_filter_le _ _
  have := pushDownY_complete placed {it with y := moveUpY placed it it.y.toNat}
    placed.length hfuel o ho
  simp only [compactItem, compactItemY]
  simpa only [setY_setY] using this

theorem compactItem_blocked (placed : List LayoutItem) (it : LayoutItem) :
    (compactItem placed it).y ≤ 0 ∨
      ∃ o ∈ placed, collides o {it with y := (compactItem placed it).y - 1} = true := by
  have hy : (compactItem placed it).y
      = pushDownY placed {it with y := moveUpY placed it it.y.toNat} placed.length := rfl
  rcases pushDownY_cases placed {it with y := moveUpY placed it it.y.toNat} placed.length
    with heq | ⟨o, ho, heq, hc⟩
  · rcases moveUpY_blocked placed it it.y.toNat (le_refl _) with hle | ⟨o, ho, hc⟩
    · left
      rw [hy, heq]
      exact hle
    · right
      refine ⟨o, ho, ?_⟩
      rw [hy, heq]
      exact hc
  · right
    refine ⟨o, ho, ?_⟩
    rw [hy, heq]
    simpa only [setY_setY] using hc

theorem blocker_eq (o m : LayoutItem)
    (h1 : collides o {m with y := m.y - 1} = true) (h0 : collides o m = false) :
    o.y + o.h = m.y ∧ o.y < m.y := by
  rw [collides_iff] at h1
  obtain ⟨hne, how, hoh, hmw, hmh, hx1, hx2, hy1, hy2⟩ := h1
  have hne' : ¬o.i = m.i := hne
  have hmw' : (0 : Int) < m.w := hmw
  have hmh' : (0 : Int) < m.h := hmh
  have hx1' : o.x < m.x + m.w := hx1
  have hx2' : m.x < o.x + o.w := hx2
  have hy1' : o.y < (m.y - 1) + m.h := hy1
  have hy2' : (m.y - 1) < o.y + o.h := hy2
  have hcon : ¬(m.y < o.y + o.h) := by
    intro hlt
    have hcoll : collides o m = true := by
      rw [collides_iff]
      exact ⟨hne', how, hoh, hmw', hmh', hx1', hx2', by omega, hlt⟩
    rw [hcoll] at h0
    cases h0
  constructor <;> omega

/-! ## Lemmas on the stable sort -/

theorem ordYX_flip (a b : LayoutItem) (h : ordYX a b = false) : ordYX b a = true := by
  unfold ordYX at h ⊢
  simp only [Bool.or_eq_false_iff, Bool.and_eq_false_iff, decide_eq_false_iff_not] at h
  simp only [Bool.or_eq_true, Bool.and_eq_true, decide_eq_true_eq]
  rcases h with ⟨h1, h2 | h2⟩ <;> omega

theorem ordYX_trans (a b c : LayoutItem) (h1 : ordYX a b = true) (h2 : ordYX b c = true) :
    ordYX a c = true := by
  unfold ordYX at h1 h2 ⊢
  simp only [Bool.or_eq_true, Bool.and_eq_true, decide_eq_true_eq] at h1 h2 ⊢
  omega

theorem insertSorted_perm (a : LayoutItem) (l : List LayoutItem) :
    (insertSorted a l).Perm (a :: l) := by
  induction l with
  | nil => exact List.Perm.refl _
  | cons b t ih =>
    unfold insertSorted
    split
    · exact List.Perm.refl _
    · exact (ih.cons b).trans (List.Perm.swap a b t)

theorem sortLayout_perm (l : List LayoutItem) : (sortLayout l).Perm l := by
  induction l with
  | nil => exact List.Perm.refl _
  | cons a t ih =>
    unfold sortLayout
    exact (insertSorted_perm a (sortLayout t)).trans (ih.cons a)

theorem insertSorted_pairwise (a : LayoutItem) (l : List LayoutItem)
    (hl : l.Pairwise (fun x y => ordYX x y = true)) :
    (insertSorted a l).Pairwise (fun x y => ordYX x y = true) := by
  induction l with
  | nil =>
    unfold insertSorted
    simp
  | cons b t ih =>
    unfold insertSorted
    rcases List.pairwise_cons.mp hl with ⟨hb, ht⟩
    split
    · rename_i hab
      refine List.pairwise_cons.mpr ⟨?_, hl⟩
      intro x hx
      rcases List.mem_cons.mp hx with rfl | hx'
      · exact hab
      · exact ordYX_trans a b x hab (hb x hx')
    · rename_i hab
      have hba : ordYX b a = true := ordYX_flip a b (by simpa using hab)
      refine List.pairwise_cons.mpr ⟨?_, ih ht⟩
      intro x hx
      have hx2 := (insertSorted_perm a t).mem_iff.mp hx
      rcases List.mem_cons.mp hx2 with rfl | hx'
      · exact hba
      · exact hb x hx'

theorem sortLayout_pairwise (l : List LayoutItem) :
    (sortLayout l).Pairwise (fun x y => ordYX x y = true) := by
  induction l with
  | nil => simp [sortLayout]
  | cons a t ih => exact insertSorted_pairwise a (sortLayout t) ih

/-! ## Pointwise list correspondences -/

theorem forall2_of_pointwise {R : LayoutItem → LayoutItem → Prop} {f : LayoutItem → LayoutItem}
    (l : List LayoutItem) (h : ∀ a ∈ l, R a (f a)) : List.Forall₂ R l (l.map f) := by
  induction l with
  | nil => exact List.Forall₂.nil
  | cons a t ih =>
    simp only [List.map_cons]
    exact List.Forall₂.cons (h a (List.mem_cons_self a t))
      (ih fun x hx => h x (List.mem_cons_of_mem a hx))

theorem forall2_mem_right {R : LayoutItem → LayoutItem → Prop} :
    ∀ {l m : List LayoutItem}, List.Forall₂ R l m → ∀ b ∈ m, ∃ a ∈ l, R a b := by
  intro l m h
  induction h with
  | nil =>
    intro b hb
    cases hb
  | cons hab htail ih =>
    intro b hb
    rcases List.mem_cons.mp hb with rfl | hb'
    · exact ⟨_, List.mem_cons_self _ _, hab⟩
    · rcases ih b hb' with ⟨a, ha, hr⟩
      exact ⟨a, List.mem_cons_of_mem _ ha, hr⟩

theorem forall2_ids {R : LayoutItem → LayoutItem → Prop}
    (hR : ∀ a b, R a b → b.i = a.i) :
    ∀ {l m : List LayoutItem}, List.Forall₂ R l m →
      m.map (fun o => o.i) = l.map (fun o => o.i) := by
  intro l m h
  induction h with
  | nil => rfl
  | cons hab htail ih => simp [ih, hR _ _ hab]

theorem find?_of_forall2 {R : LayoutItem → LayoutItem → Prop}
    (hR : ∀ a b, R a b → b.i = a.i) (idv : String) :
    ∀ {l m : List LayoutItem}, List.Forall₂ R l m →
      ∀ {a : LayoutItem}, l.find? (fun o => o.i = idv) = some a →
        ∃ b, m.find? (fun o => o.i = idv) = some b ∧ R a b := by
  intro l m h
  induction h with
  | nil =>
    intro a ha
    simp at ha
  | cons hxy htail ih =>
    rename_i x y l' m'
    intro a ha
    by_cases hid : x.i = idv
    · rw [List.find?_cons_of_pos _ (by simpa using hid)] at ha
      have hax : x = a := by simpa using ha
      have hyid : y.i = idv := by rw [hR x y hxy]; exact hid
      refine ⟨y, ?_, ?_⟩
      · rw [List.find?_cons_of_pos _ (by simpa using hyid)]
      · rw [← hax]
        exact hxy
    · rw [List.find?_cons_of_neg _ (by simpa using hid)] at ha
      have hyid : ¬(y.i = idv) := by rw [hR x y hxy]; exact hid
      rcases ih ha with ⟨b, hb, hrb⟩
      refine ⟨b, ?_, hrb⟩
      rw [List.find?_cons_of_neg _ (by simpa using hyid)]
      exact hb

/-! ## Lemmas on the compaction pass -/

theorem sameButY_id {a b : LayoutItem} (h : sameButY a b) : b.i = a.i := by
  rw [h]

theorem compactPass_shape (S : List LayoutItem) :
    ∀ P, List.Forall₂ sameButY (S.filter (fun it => !it.static)) (compactPass P S) := by
  induction S with
  | nil =>
    intro P
    exact List.Forall₂.nil
  | cons it rest ih =>
    intro P
    by_cases hst : it.static = true
    · rw [List.filter_cons_of_neg (by simp [hst])]
      unfold compactPass
      rw [if_pos hst]
      exact ih P
    · have hst' : it.static = false := by simpa using hst
      rw [List.filter_cons_of_pos (by simp [hst'])]
      unfold compactPass
      rw [if_neg (by simp [hst'])]
      exact List.Forall₂.cons rfl (ih _)

theorem compactPass_ok (S : List LayoutItem) :
    ∀ P, ∀ p ∈ compactPass P S, ∀ o ∈ P, collides o p = false := by
  induction S with
  | nil =>
    intro P p hp
    cases hp
  | cons it rest ih =>
    intro P p hp o ho
    unfold compactPass at hp
    by_cases hst : it.static = true
    · rw [if_pos hst] at hp
      exact ih P p hp o ho
    · rw [if_neg (by simpa using hst)] at hp
      rcases List.mem_cons.mp hp with rfl | hp'
      · exact compactItem_free P it o ho
      · exact ih (P ++ [compactItem P it]) p hp' o (List.mem_append_left _ ho)

theorem compactPass_pairwise (S : List LayoutItem) :
    ∀ P, (compactPass P S).Pairwise
      (fun a b => collides a b = false ∧ collides b a = false) := by
  induction S with
  | nil =>
    intro P
    unfold compactPass
    exact List.Pairwise.nil
  | cons it rest ih =>
    intro P
    unfold compactPass
    by_cases hst : it.static = true
    · rw [if_pos hst]
      exact ih P
    · rw [if_neg (by simpa using hst)]
      refine List.pairwise_cons.mpr ⟨?_, ih _⟩
      intro r hr
      have hcr : collides (compactItem P it) r = false :=
        compactPass_ok rest (P ++ [compactItem P it]) r hr (compactItem P it)
          (List.mem_append_right _ (List.mem_singleton.mpr rfl))
      exact ⟨hcr, (collides_comm_false _ _).mpr hcr⟩

theorem compactPass_blocked (S : List LayoutItem) :
    ∀ P, ∀ p ∈ compactPass P S, p.y ≤ 0 ∨
      ∃ o, (o ∈ P ∨ o ∈ compactPass P S) ∧ collides o {p with y := p.y - 1} = true := by
  induction S with
  | nil =>
    intro P p hp
    cases hp
  | cons it rest ih =>
    intro P p hp
    unfold compactPass at hp ⊢
    by_cases hst : it.static = true
    · rw [if_pos hst] at hp ⊢
      exact ih P p hp
    · rw [if_neg (by simpa using hst)] at hp ⊢
      rcases List.mem_cons.mp hp with rfl | hp'
      · rcases compactItem_blocked P it with hle | ⟨o, ho, hc⟩
        · left; exact hle
        · right
          exact ⟨o, Or.inl ho, hc⟩
      · rcases ih (P ++ [compactItem P it]) p hp' with hle | ⟨o, ho, hc⟩
        · left; exact hle
        · right
          refine ⟨o, ?_, hc⟩
          rcases ho with ho | ho
          · rcases List.mem_append.mp ho with ho' | ho'
            · exact Or.inl ho'
            · exact Or.inr (List.mem_cons.mpr (Or.inl (List.mem_singleton.mp ho')))
          · exact Or.inr (List.mem_cons.mpr (Or.inr ho))

theorem compactPass_fixed (S : List LayoutItem) :
    ∀ P,
    S.Pairwise (fun x y => ordYX x y = true) →
    (∀ s ∈ S, s.static = true → s ∈ P) →
    (∀ m ∈ S, m.static = false → ∀ o ∈ P, collides o m = false) →
    (∀ m ∈ S, m.static = false → ∀ o ∈ S, collides o m = false) →
    (∀ m ∈ S, m.static = false → m.y ≤ 0 ∨
      ∃ o, (o ∈ P ∨ o ∈ S) ∧ collides o {m with y := m.y - 1} = true ∧ o.y + o.h = m.y) →
    compactPass P S = S.filter (fun it => !it.static) := by
  induction S with
  | nil =>
    intro P _ _ _ _ _
    rfl
  | cons it rest ih =>
    intro P hsort h0 h1 h2 h3
    rcases List.pairwise_cons.mp hsort with ⟨hhead, htail⟩
    unfold compactPass
    by_cases hst : it.static = true
    · rw [if_pos hst, List.filter_cons_of_neg (by simp [hst])]
      refine ih P htail ?_ ?_ ?_ ?_
      · exact fun s hs h => h0 s (List.mem_cons_of_mem it hs) h
      · exact fun m hm h => h1 m (List.mem_cons_of_mem it hm) h
      · exact fun m hm h o ho =>
          h2 m (List.mem_cons_of_mem it hm) h o (List.mem_cons_of_mem it ho)
      · intro m hm h
        rcases h3 m (List.mem_cons_of_mem it hm) h with hle | ⟨o, ho, hc, he⟩
        · exact Or.inl hle
        · refine Or.inr ⟨o, ?_, hc, he⟩
          rcases ho with ho | ho
          · exact Or.inl ho
          · rcases List.mem_cons.mp ho with rfl | ho'
            · exact Or.inl (h0 o (List.mem_cons_self o rest) hst)
            · exact Or.inr ho'
    · have hst' : it.static = false := by simpa using hst
      have hitmem : it ∈ it :: rest := List.mem_cons_self it rest
      -- the head item is already settled
      have hmu : moveUpY P it it.y.toNat = it.y := by
        apply moveUpY_stay
        rcases h3 it hitmem hst' with hle | ⟨o, ho, hc, he⟩
        · exact Or.inl hle
        · refine Or.inr ⟨o, ?_, hc⟩
          rcases ho with ho | ho
          · exact ho
          · exfalso
            have hoh : (0 : Int) < o.h := ((collides_iff o _).mp hc).2.2.1
            have hoy : o.y < it.y := by omega
            rcases List.mem_cons.mp ho with rfl | ho'
            · omega
            · have hord := hhead o ho'
              unfold ordYX at hord
              simp only [Bool.or_eq_true, Bool.and_eq_true, decide_eq_true_eq] at hord
              omega
      have hcy : compactItemY P it = it.y := by
        simp only [compactItemY]
        rw [hmu]
        have e : ({it with y := it.y} : LayoutItem) = it := setY_self it
        rw [e]
        exact pushDownY_free P it P.length (h1 it hitmem hst')
      have hstay : compactItem P it = it := by
        unfold compactItem
        rw [hcy]
      rw [if_neg (by simpa using hst), hstay,
        List.filter_cons_of_pos (by simp [hst'])]
      show it :: compactPass (P ++ [it]) rest = it :: List.filter (fun o => !o.static) rest
      congr 1
      refine ih (P ++ [it]) htail ?_ ?_ ?_ ?_
      · intro s hs h
        exact List.mem_append_left _ (h0 s (List.mem_cons_of_mem it hs) h)
      · intro m hm h o ho
        rcases List.mem_append.mp ho with ho' | ho'
        · exact h1 m (List.mem_cons_of_mem it hm) h o ho'
        · rw [List.mem_singleton.mp ho']
          exact h2 m (List.mem_cons_of_mem it hm) h it hitmem
      · exact fun m hm h o ho =>
          h2 m (List.mem_cons_of_mem it hm) h o (List.mem_cons_of_mem it ho)
      · intro m hm h
        rcases h3 m (List.mem_cons_of_mem it hm) h with hle | ⟨o, ho, hc, he⟩
        · exact Or.inl hle
        · refine Or.inr ⟨o, ?_, hc, he⟩
          rcases ho with ho | ho
          · exact Or.inl (List.mem_append_left _ ho)
          · rcases List.mem_cons.mp ho with rfl | ho'
            · exact Or.inl (List.mem_append_right _ (List.mem_singleton.mpr rfl))
            · exact Or.inr ho'

/-! ## Lemmas on whole-layout compaction -/

theorem item_ext {a b : LayoutItem} (hi : a.i = b.i) (hx : a.x = b.x) (hy : a.y = b.y)
    (hw : a.w = b.w) (hh : a.h = b.h) (hminw : a.minW = b.minW) (hmaxw : a.maxW = b.maxW)
    (hminh : a.minH = b.minH) (hmaxh : a.maxH = b.maxH) (hst : a.static = b.static)
    (hd : a.isDraggable = b.isDraggable) (hr : a.isResizable = b.isResizable)
    (hm : a.moved = b.moved) : a = b := by
  cases a
  cases b
  simp_all

theorem cloneLayoutItem_eq (it : LayoutItem) : cloneLayoutItem it = it := rfl

theorem cloneLayout_eq (L : List LayoutItem) : cloneLayout L = L := by
  unfold cloneLayout
  induction L with
  | nil => rfl
  | cons a t ih => simp [ih, cloneLayoutItem_eq]

theorem map_clearMoved_ids (L : List LayoutItem) :
    (L.map clearMoved).map (fun o => o.i) = L.map (fun o => o.i) := by
  rw [List.map_map]
  rfl

theorem map_clearMoved_moved (L : List LayoutItem) :
    ∀ it ∈ L.map clearMoved, it.moved = false := by
  intro it hit
  rcases List.mem_map.mp hit with ⟨a, _, rfl⟩
  rfl

theorem find?_id_isSome (l : List LayoutItem) (idv : String)
    (h : idv ∈ l.map (fun o => o.i)) :
    ∃ b, l.find? (fun o => o.i = idv) = some b := by
  induction l with
  | nil => cases h
  | cons a t ih =>
    by_cases ha : a.i = idv
    · exact ⟨a, by rw [List.find?_cons_of_pos _ (by simpa using ha)]⟩
    · rcases List.mem_cons.mp (by simpa using h : idv ∈ a.i :: t.map (fun o => o.i)) with
        heq | hmem
      · exact absurd heq.symm ha
      · rcases ih hmem with ⟨b, hb⟩
        exact ⟨b, by rw [List.find?_cons_of_neg _ (by simpa using ha)]; exact hb⟩

theorem pairwise_forall_symm {R : LayoutItem → LayoutItem → Prop}
    (hsymm : ∀ a b, R a b → R b a) :
    ∀ {l : List LayoutItem}, l.Pairwise R →
      ∀ a ∈ l, ∀ b ∈ l, a ≠ b → R a b := by
  intro l hl
  induction hl with
  | nil =>
    intro a ha
    cases ha
  | cons hhead htail ih =>
    intro a ha b hb hab
    rcases List.mem_cons.mp ha with rfl | ha' <;> rcases List.mem_cons.mp hb with rfl | hb'
    · exact absurd rfl hab
    · exact hhead b hb'
    · exact hsymm _ _ (hhead a ha')
    · exact ih a ha' b hb' hab

theorem compactFinish_id (proc : List LayoutItem) (it : LayoutItem) :
    (compactFinish proc it).i = it.i := by
  unfold compactFinish
  split
  · rfl
  · cases hf : proc.find? (fun p => p.i = it.i) with
    | none => rfl
    | some p =>
      have hp : p.i = it.i := by
        have := List.find?_some hf
        simpa using this
      simp [hp]

theorem compact_ids (L : List LayoutItem) (cols : Int) :
    (compact L cols).map (fun o => o.i) = L.map (fun o => o.i) := by
  show ((L.map clearMoved).map
    (compactFinish (compactPass (getStatics (L.map clearMoved))
      (sortLayout (L.map clearMoved))))).map (fun o => o.i) = L.map (fun o => o.i)
  rw [List.map_map, List.map_map]
  apply List.map_congr_left
  intro a _
  show (compactFinish (compactPass (getStatics (L.map clearMoved))
    (sortLayout (L.map clearMoved))) (clearMoved a)).i = a.i
  rw [compactFinish_id]
  rfl

theorem sortLayout_ids_nodup (L : List LayoutItem)
    (hnd : (L.map (fun o => o.i)).Nodup) :
    ((sortLayout L).map (fun o => o.i)).Nodup := by
  have hperm : ((sortLayout L).map (fun o => o.i)).Perm (L.map (fun o => o.i)) :=
    (sortLayout_perm L).map _
  exact hperm.nodup_iff.mpr hnd

theorem movables_ids_nodup (S : List LayoutItem)
    (hnd : (S.map (fun o => o.i)).Nodup) :
    ((S.filter (fun o => !o.static)).map (fun o => o.i)).Nodup := by
  have hsub : (S.filter (fun o => !o.static)).Sublist S := List.filter_sublist _
  exact List.Nodup.sublist (hsub.map _) hnd

theorem compact_forall2 (L : List LayoutItem) (cols : Int)
    (hnd : (L.map (fun o => o.i)).Nodup) :
    List.Forall₂ (fun a b => b = {a with y := b.y, moved := false}) L (compact L cols) := by
  show List.Forall₂ _ L ((L.map clearMoved).map
    (compactFinish (compactPass (getStatics (L.map clearMoved))
      (sortLayout (L.map clearMoved)))))
  rw [List.map_map]
  apply forall2_of_pointwise
  intro a ha
  by_cases hst : a.static = true
  · have hfa : (compactFinish (compactPass (getStatics (L.map clearMoved))
        (sortLayout (L.map clearMoved))) ∘ clearMoved) a = clearMoved a := by
      show compactFinish _ (clearMoved a) = clearMoved a
      unfold compactFinish
      rw [if_pos (show (clearMoved a).static = true from hst)]
    rw [hfa]
    rfl
  · have hst' : a.static = false := by simpa using hst
    have hmemL0 : clearMoved a ∈ L.map clearMoved := List.mem_map_of_mem clearMoved ha
    have hmemS : clearMoved a ∈ sortLayout (L.map clearMoved) :=
      ((sortLayout_perm (L.map clearMoved)).mem_iff).mpr hmemL0
    have hmemM : clearMoved a ∈
        (sortLayout (L.map clearMoved)).filter (fun o => !o.static) :=
      List.mem_filter.mpr ⟨hmemS, by simp [clearMoved, hst']⟩
    have hndL0 : ((L.map clearMoved).map (fun o => o.i)).Nodup := by
      rw [map_clearMoved_ids]
      exact hnd
    have hndS : ((sortLayout (L.map clearMoved)).map (fun o => o.i)).Nodup :=
      sortLayout_ids_nodup _ hndL0
    have hndM : (((sortLayout (L.map clearMoved)).filter (fun o => !o.static)).map
        (fun o => o.i)).Nodup := movables_ids_nodup _ hndS
    have hshape : List.Forall₂ sameButY
        ((sortLayout (L.map clearMoved)).filter (fun o => !o.static))
        (compactPass (getStatics (L.map clearMoved)) (sortLayout (L.map clearMoved))) :=
      compactPass_shape _ _
    have hfindM : ((sortLayout (L.map clearMoved)).filter (fun o => !o.static)).find?
        (fun p => p.i = (clearMoved a).i) = some (clearMoved a) :=
      find?_unique_by_id _ hndM (clearMoved a) hmemM
    rcases find?_of_forall2 (fun x y h => sameButY_id h) (clearMoved a).i hshape hfindM with
      ⟨b, hfindP, hsame⟩
    have hfa : (compactFinish (compactPass (getStatics (L.map clearMoved))
        (sortLayout (L.map clearMoved))) ∘ clearMoved) a = b := by
      show compactFinish _ (clearMoved a) = b
      unfold compactFinish
      rw [if_neg (show ¬((clearMoved a).static = true) by
        show ¬(a.static = true)
        simp [hst'])]
      rw [hfindP]
      rfl
    rw [hfa]
    exact hsame

theorem compact_repr (L : List LayoutItem) (cols : Int) :
    compact L cols = (L.map clearMoved).map
      (compactFinish (compactPass (getStatics (L.map clearMoved))
        (sortLayout (L.map clearMoved)))) := rfl

theorem compactFinish_static {proc : List LayoutItem} {it : LayoutItem}
    (hst : it.static = true) : compactFinish proc it = it := by
  unfold compactFinish
  rw [if_pos hst]

theorem compactFinish_movable {proc : List LayoutItem} {it b : LayoutItem}
    (hst : it.static = false) (hfind : proc.find? (fun p => p.i = it.i) = some b) :
    compactFinish proc it = b := by
  unfold compactFinish
  rw [if_neg (by simp [hst]), hfind]
  rfl

theorem proc_ids_nodup (L : List LayoutItem)
    (hnd : (L.map (fun o => o.i)).Nodup) :
    ((compactPass (getStatics (L.map clearMoved))
      (sortLayout (L.map clearMoved))).map (fun o => o.i)).Nodup := by
  rw [forall2_ids (fun x y h => sameButY_id h) (compactPass_shape _ _)]
  exact movables_ids_nodup _ (sortLayout_ids_nodup _ (by rw [map_clearMoved_ids]; exact hnd))

theorem proc_mem_out (L : List LayoutItem) (cols : Int)
    (hnd : (L.map (fun o => o.i)).Nodup) :
    ∀ o ∈ compactPass (getStatics (L.map clearMoved)) (sortLayout (L.map clearMoved)),
      o ∈ compact L cols := by
  intro o ho
  rcases forall2_mem_right (compactPass_shape (sortLayout (L.map clearMoved))
      (getStatics (L.map clearMoved))) o ho with ⟨a, haM, hsame⟩
  have haS : a ∈ sortLayout (L.map clearMoved) := (List.mem_filter.mp haM).1
  have haL0 : a ∈ L.map clearMoved := (sortLayout_perm _).mem_iff.mp haS
  have hast : a.static = false := by
    have := (List.mem_filter.mp haM).2
    simpa using this
  have hfind : (compactPass (getStatics (L.map clearMoved))
      (sortLayout (L.map clearMoved))).find? (fun p => p.i = a.i) = some o := by
    have h1 := find?_unique_by_id _ (proc_ids_nodup L hnd) o ho
    rw [sameButY_id hsame] at h1
    exact h1
  rw [compact_repr]
  exact List.mem_map.mpr ⟨a, haL0, compactFinish_movable hast hfind⟩

theorem static_mem_out (L : List LayoutItem) (cols : Int) :
    ∀ s ∈ L.map clearMoved, s.static = true → s ∈ compact L cols := by
  intro s hs hst
  rw [compact_repr]
  exact List.mem_map.mpr ⟨s, hs, compactFinish_static hst⟩

theorem out_movable_elem (L : List LayoutItem) :
    ∀ it ∈ L.map clearMoved, it.static = false →
      ∃ b ∈ compactPass (getStatics (L.map clearMoved)) (sortLayout (L.map clearMoved)),
        compactFinish (compactPass (getStatics (L.map clearMoved))
          (sortLayout (L.map clearMoved))) it = b := by
  intro it hit hst
  have hmemS : it ∈ sortLayout (L.map clearMoved) := (sortLayout_perm _).mem_iff.mpr hit
  have hmemM : it ∈ (sortLayout (L.map clearMoved)).filter (fun o => !o.static) :=
    List.mem_filter.mpr ⟨hmemS, by simp [hst]⟩
  have hidmem : it.i ∈ (compactPass (getStatics (L.map clearMoved))
      (sortLayout (L.map clearMoved))).map (fun o => o.i) := by
    rw [forall2_ids (fun x y h => sameButY_id h) (compactPass_shape _ _)]
    exact List.mem_map_of_mem _ hmemM
  rcases find?_id_isSome _ _ hidmem with ⟨b, hb⟩
  exact ⟨b, List.mem_of_find?_eq_some hb, compactFinish_movable hst hb⟩

theorem compact_settled (L : List LayoutItem) (cols : Int)
    (hnd : (L.map (fun o => o.i)).Nodup) :
    (∀ it ∈ compact L cols, it.moved = false) ∧
    (∀ m ∈ compact L cols, m.static = false →
      ∀ o ∈ compact L cols, collides o m = false) ∧
    (∀ m ∈ compact L cols, m.static = false → m.y ≤ 0 ∨
      ∃ o ∈ compact L cols, collides o {m with y := m.y - 1} = true ∧ o.y + o.h = m.y) := by
  have hshape := compactPass_shape (sortLayout (L.map clearMoved))
    (getStatics (L.map clearMoved))
  have helem : ∀ m ∈ compact L cols, ∃ it ∈ L.map clearMoved,
      m = compactFinish (compactPass (getStatics (L.map clearMoved))
        (sortLayout (L.map clearMoved))) it := by
    intro m hm
    rw [compact_repr] at hm
    rcases List.mem_map.mp hm with ⟨it, hit, rfl⟩
    exact ⟨it, hit, rfl⟩
  have hproc_case : ∀ m ∈ compact L cols, m.static = false →
      m ∈ compactPass (getStatics (L.map clearMoved)) (sortLayout (L.map clearMoved)) := by
    intro m hm hmst
    rcases helem m hm with ⟨it, hit, rfl⟩
    by_cases hst : it.static = true
    · exfalso
      rw [compactFinish_static hst] at hmst
      rw [hmst] at hst
      exact absurd hst (by simp)
    · have hst' : it.static = false := by simpa using hst
      rcases out_movable_elem L it hit hst' with ⟨b, hbproc, hFb⟩
      rw [hFb]
      exact hbproc
  have hq0 : ∀ it ∈ compact L cols, it.moved = false := by
    intro m hm
    rcases helem m hm with ⟨it, hit, rfl⟩
    by_cases hst : it.static = true
    · rw [compactFinish_static hst]
      exact map_clearMoved_moved L it hit
    · have hst' : it.static = false := by simpa using hst
      rcases out_movable_elem L it hit hst' with ⟨b, hbproc, hFb⟩
      rw [hFb]
      rcases forall2_mem_right hshape b hbproc with ⟨a, haM, hsame⟩
      have haL0 : a ∈ L.map clearMoved :=
        (sortLayout_perm _).mem_iff.mp (List.mem_filter.mp haM).1
      have hmv : b.moved = a.moved := by rw [hsame]
      rw [hmv]
      exact map_clearMoved_moved L a haL0
  have hq1 : ∀ m ∈ compact L cols, m.static = false →
      ∀ o ∈ compact L cols, collides o m = false := by
    intro m hm hmst o ho
    have hmproc := hproc_case m hm hmst
    rcases helem o ho with ⟨ito, hito, rfl⟩
    by_cases hsto : ito.static = true
    · rw [compactFinish_static hsto]
      have hmem : ito ∈ getStatics (L.map clearMoved) :=
        List.mem_filter.mpr ⟨hito, by simp [hsto]⟩
      exact compactPass_ok _ _ m hmproc ito hmem
    · have hsto' : ito.static = false := by simpa using hsto
      rcases out_movable_elem L ito hito hsto' with ⟨bo, hboproc, hFbo⟩
      rw [hFbo]
      by_cases hbe : bo = m
      · rw [hbe]
        exact collides_self m
      · have hpw := compactPass_pairwise (sortLayout (L.map clearMoved))
          (getStatics (L.map clearMoved))
        exact (pairwise_forall_symm (fun a b h => ⟨h.2, h.1⟩) hpw bo hboproc m hmproc hbe).1
  have hq2 : ∀ m ∈ compact L cols, m.static = false → m.y ≤ 0 ∨
      ∃ o ∈ compact L cols, collides o {m with y := m.y - 1} = true ∧ o.y + o.h = m.y := by
    intro m hm hmst
    have hmproc := hproc_case m hm hmst
    rcases compactPass_blocked (sortLayout (L.map clearMoved))
        (getStatics (L.map clearMoved)) m hmproc with hle | ⟨o, ho, hc⟩
    · exact Or.inl hle
    · have hoout : o ∈ compact L cols := by
        rcases ho with ho | ho
        · have hmem := List.mem_filter.mp ho
          exact static_mem_out L cols o hmem.1 (by simpa using hmem.2)
        · exact proc_mem_out L cols hnd o ho
      have hfree : collides o m = false := hq1 m hm hmst o hoout
      rcases blocker_eq o m hc hfree with ⟨heq, _⟩
      exact Or.inr ⟨o, hoout, hc, heq⟩
  exact ⟨hq0, hq1, hq2⟩

theorem compact_of_settled (L : List LayoutItem) (cols : Int)
    (hnd : (L.map (fun o => o.i)).Nodup)
    (q0 : ∀ it ∈ L, it.moved = false)
    (q1 : ∀ m ∈ L, m.static = false → ∀ o ∈ L, collides o m = false)
    (q2 : ∀ m ∈ L, m.static = false → m.y ≤ 0 ∨
      ∃ o ∈ L, collides o {m with y := m.y - 1} = true ∧ o.y + o.h = m.y) :
    compact L cols = L := by
  have hL0 : L.map clearMoved = L := by
    have h1 : L.map clearMoved = L.map id :=
      List.map_congr_left (fun a ha => clearMoved_eq_self a (q0 a ha))
    rw [h1, List.map_id]
  rw [compact_repr, hL0]
  have hproc : compactPass (getStatics L) (sortLayout L)
      = (sortLayout L).filter (fun it => !it.static) := by
    apply compactPass_fixed (sortLayout L) (getStatics L) (sortLayout_pairwise L)
    · intro s hs hst
      exact List.mem_filter.mpr ⟨(sortLayout_perm L).mem_iff.mp hs, hst⟩
    · intro m hm hmst o ho
      exact q1 m ((sortLayout_perm L).mem_iff.mp hm) hmst o (List.mem_filter.mp ho).1
    · intro m hm hmst o ho
      exact q1 m ((sortLayout_perm L).mem_iff.mp hm) hmst o ((sortLayout_perm L).mem_iff.mp ho)
    · intro m hm hmst
      rcases q2 m ((sortLayout_perm L).mem_iff.mp hm) hmst with hle | ⟨o, hoL, hc, he⟩
      · exact Or.inl hle
      · exact Or.inr ⟨o, Or.inr ((sortLayout_perm L).mem_iff.mpr hoL), hc, he⟩
  rw [hproc]
  have hpoint : ∀ it ∈ L,
      compactFinish ((sortLayout L).filter (fun it => !it.static)) it = it := by
    intro it hit
    by_cases hst : it.static = true
    · exact compactFinish_static hst
    · have hst' : it.static = false := by simpa using hst
      have hmemM : it ∈ (sortLayout L).filter (fun o => !o.static) :=
        List.mem_filter.mpr ⟨(sortLayout_perm L).mem_iff.mpr hit, by simp [hst']⟩
      have hndM : (((sortLayout L).filter (fun o => !o.static)).map (fun o => o.i)).Nodup :=
        movables_ids_nodup _ (sortLayout_ids_nodup _ hnd)
      exact compactFinish_movable hst' (find?_unique_by_id _ hndM it hmemM)
  exact (List.map_congr_left hpoint).trans (List.map_id L)

theorem compact_idem_core (L : List LayoutItem) (cols : Int)
    (hnd : (L.map (fun o => o.i)).Nodup) :
    compact (compact L cols) cols = compact L cols := by
  have hnd' : ((compact L cols).map (fun o => o.i)).Nodup := by
    rw [compact_ids]
    exact hnd
  obtain ⟨hq0, hq1, hq2⟩ := compact_settled L cols hnd
  exact compact_of_settled _ cols hnd' hq0 hq1 hq2

/-! ## Bounds-correction stability -/

theorem max_one_idem (v : Int) : max (max v 1) 1 = max v 1 := by
  simp only [max_def]
  split_ifs <;> omega

theorem correctItem_idem (cols : Int) (it : LayoutItem) :
    correctItem cols (correctItem cols it) = correctItem cols it := by
  apply item_ext
  · rfl
  · show clampInt (clampInt it.x 0 (cols - clampInt it.w 1 cols)) 0
      (cols - clampInt (clampInt it.w 1 cols) 1 cols)
      = clampInt it.x 0 (cols - clampInt it.w 1 cols)
    rw [clampInt_idem it.w 1 cols]
    exact clampInt_idem it.x 0 _
  · rfl
  · exact clampInt_idem it.w 1 cols
  · exact max_one_idem it.h
  · rfl
  · rfl
  · rfl
  · rfl
  · rfl
  · rfl
  · rfl
  · rfl

theorem correctBounds_ids (L : List LayoutItem) (cols : Int) :
    (correctBounds L cols).map (fun o => o.i) = L.map (fun o => o.i) := by
  unfold correctBounds
  rw [List.map_map]
  apply List.map_congr_left
  intro a _
  rfl

theorem correctBounds_fixed_of (L : List LayoutItem) (cols : Int)
    (h : ∀ it ∈ L, correctItem cols it = it) :
    correctBounds L cols = L :=
  (List.map_congr_left h).trans (List.map_id L)

theorem correctItem_of_forall2 (cols : Int) {a b : LayoutItem}
    (hb : b = {a with y := b.y, moved := false}) (ha : correctItem cols a = a) :
    correctItem cols b = b := by
  have hbx : b.x = a.x := by rw [hb]
  have hbw : b.w = a.w := by rw [hb]
  have hbh : b.h = a.h := by rw [hb]
  have hax : clampInt a.x 0 (cols - clampInt a.w 1 cols) = a.x := congrArg LayoutItem.x ha
  have haw : clampInt a.w 1 cols = a.w := congrArg LayoutItem.w ha
  have hah : max a.h 1 = a.h := congrArg LayoutItem.h ha
  apply item_ext
  · rfl
  · show clampInt b.x 0 (cols - clampInt b.w 1 cols) = b.x
    rw [hbx, hbw, hax]
  · rfl
  · show clampInt b.w 1 cols = b.w
    rw [hbw, haw]
  · show max b.h 1 = b.h
    rw [hbh, hah]
  · rfl
  · rfl
  · rfl
  · rfl
  · rfl
  · rfl
  · rfl
  · rfl

theorem correctBounds_compact (M : List LayoutItem) (cols : Int)
    (hnd : (M.map (fun o => o.i)).Nodup)
    (h : ∀ it ∈ M, correctItem cols it = it) :
    correctBounds (compact M cols) cols = compact M cols := by
  apply correctBounds_fixed_of
  intro b hb
  rcases forall2_mem_right (compact_forall2 M cols hnd) b hb with ⟨a, haM, hab⟩
  exact correctItem_of_forall2 cols hab (h a haM)

theorem synchronizeLayout_vertical (cols : Int) (L : List LayoutItem) :
    synchronizeLayout verticalCompactor cols L = compact (correctBounds L cols) cols := by
  unfold synchronizeLayout verticalCompactor
  rw [cloneLayout_eq]

theorem sync_idem (L : List LayoutItem) (cols : Int)
    (hnd : (L.map (fun o => o.i)).Nodup) :
    synchronizeLayout verticalCompactor cols (synchronizeLayout verticalCompactor cols L)
      = synchronizeLayout verticalCompactor cols L := by
  rw [synchronizeLayout_vertical, synchronizeLayout_vertical]
  have hndM : ((correctBounds L cols).map (fun o => o.i)).Nodup := by
    rw [correctBounds_ids]
    exact hnd
  have hfix : ∀ it ∈ correctBounds L cols, correctItem cols it = it := by
    intro b hb
    rcases List.mem_map.mp (show b ∈ L.map (correctItem cols) from hb) with ⟨a, _, rfl⟩
    exact correctItem_idem cols a
  rw [correctBounds_compact _ cols hndM hfix]
  exact compact_idem_core _ cols hndM

/-! ## Claim C1: idempotence of compaction -/

/-- C1: for every layout with unique item ids (the data-model invariant of
spec §3) and every column count, applying the vertical compactor's
`compact` twice yields a structurally equal result to applying it once; in
particular re-normalizing an already-normalized layout, as
`synchronizeLayout` of GridLayout.vue and `initializeLayout` of
useGridLayout.ts do on every prop sync, returns a structurally equal
layout. -/
theorem compact_idempotent_claim (L : List LayoutItem) (cols : Int)
    (hnd : (L.map (fun o => o.i)).Nodup) :
    compact (compact L cols) cols = compact L cols ∧
    synchronizeLayout verticalCompactor cols (synchronizeLayout verticalCompactor cols L)
      = synchronizeLayout verticalCompactor cols L ∧
    UGL.initializeLayout ⟨cols, false, verticalCompactor⟩
        (UGL.initializeLayout ⟨cols, false, verticalCompactor⟩ L)
      = UGL.initializeLayout ⟨cols, false, verticalCompactor⟩ L :=
  ⟨compact_idem_core L cols hnd, sync_idem L cols hnd, sync_idem L cols hnd⟩

/-- Witness: the idempotence claim applied to a concrete three-item layout
(two movable items and one static obstacle) with twelve columns. -/
theorem compact_idempotent_claim_witness :
    (([mkItem "a" 0 5 2 2, mkItem "b" 0 2 2 2,
        ⟨"s", 0, 3, 2, 2, none, none, none, none, true, none, none, false⟩].map
          (fun o => o.i)).Nodup) ∧
    compact (compact [mkItem "a" 0 5 2 2, mkItem "b" 0 2 2 2,
        ⟨"s", 0, 3, 2, 2, none, none, none, none, true, none, none, false⟩] 12) 12
      = compact [mkItem "a" 0 5 2 2, mkItem "b" 0 2 2 2,
        ⟨"s", 0, 3, 2, 2, none, none, none, none, true, none, none, false⟩] 12 :=
  ⟨by decide,
   (compact_idempotent_claim [mkItem "a" 0 5 2 2, mkItem "b" 0 2 2 2,
      ⟨"s", 0, 3, 2, 2, none, none, none, none, true, none, none, false⟩] 12 (by decide)).1⟩

/-! ## Claim C2: breakpoint resolution from width -/


theorem largestLE_none (width : Int) (bps : List (String × Int))
    (h : largestLE width bps = none) : ∀ p ∈ bps, ¬(p.2 ≤ width) := by
  induction bps with
  | nil =>
    intro p hp
    cases hp
  | cons q rest ih =>
    cases hrest : largestLE width rest with
    | none =>
      simp only [largestLE, hrest] at h
      intro p hp
      rcases List.mem_cons.mp hp with rfl | hp'
      · intro hq
        rw [if_pos hq] at h
        cases h
      · exact ih hrest p hp'
    | some r =>
      simp only [largestLE, hrest] at h
      split at h <;> cases h

theorem largestLE_some (width : Int) (bps : List (String × Int)) :
    ∀ p, largestLE width bps = some p →
      p ∈ bps ∧ p.2 ≤ width ∧ ∀ q ∈ bps, q.2 ≤ width → q.2 ≤ p.2 := by
  induction bps with
  | nil =>
    intro p h
    cases h
  | cons a rest ih =>
    intro p h
    cases hrest : largestLE width rest with
    | none =>
      simp only [largestLE, hrest] at h
      by_cases ha : a.2 ≤ width
      · rw [if_pos ha] at h
        have hap : a = p := by simpa using h
        subst hap
        refine ⟨List.mem_cons_self _ _, ha, ?_⟩
        intro q hq hqw
        rcases List.mem_cons.mp hq with rfl | hq'
        · exact le_refl _
        · exact absurd hqw (largestLE_none width rest hrest q hq')
      · rw [if_neg ha] at h
        cases h
    | some r =>
      simp only [largestLE, hrest] at h
      rcases ih r hrest with ⟨hrmem, hrw, hrmax⟩
      by_cases hcond : a.2 ≤ width ∧ r.2 ≤ a.2
      · rw [if_pos hcond] at h
        have hap : a = p := by simpa using h
        subst hap
        refine ⟨List.mem_cons_self _ _, hcond.1, ?_⟩
        intro q hq hqw
        rcases List.mem_cons.mp hq with rfl | hq'
        · exact le_refl _
        · exact le_trans (hrmax q hq' hqw) hcond.2
      · rw [if_neg hcond] at h
        have hrp : r = p := by simpa using h
        subst hrp
        refine ⟨List.mem_cons_of_mem _ hrmem, hrw, ?_⟩
        intro q hq hqw
        rcases List.mem_cons.mp hq with rfl | hq'
        · by_cases hqa : r.2 ≤ q.2
          · exact absurd ⟨hqw, hqa⟩ hcond
          · omega
        · exact hrmax q hq' hqw

theorem smallestBp_spec (bps : List (String × Int)) (hne : bps ≠ []) :
    ∃ p, smallestBp bps = some p ∧ p ∈ bps ∧ ∀ q ∈ bps, p.2 ≤ q.2 := by
  induction bps with
  | nil => exact absurd rfl hne
  | cons a rest ih =>
    cases hrest : smallestBp rest with
    | none =>
      have hrestnil : rest = [] := by
        cases rest with
        | nil => rfl
        | cons b t =>
          cases h2 : smallestBp t with
          | none =>
            simp only [smallestBp, h2] at hrest
            cases hrest
          | some r2 =>
            simp only [smallestBp, h2] at hrest
            split at hrest <;> cases hrest
      subst hrestnil
      refine ⟨a, rfl, List.mem_cons_self _ _, ?_⟩
      intro q hq
      rcases List.mem_cons.mp hq with rfl | hq'
      · exact le_refl _
      · cases hq'
    | some r =>
      have hne' : rest ≠ [] := by
        intro hnil
        rw [hnil] at hrest
        cases hrest
      rcases ih hne' with ⟨r', hr', hrmem, hrmin⟩
      have hrr : r' = r := by
        rw [hr'] at hrest
        simpa using hrest
      rw [hrr] at hrmem hrmin
      by_cases har : a.2 ≤ r.2
      · refine ⟨a, ?_, List.mem_cons_self _ _, ?_⟩
        · simp only [smallestBp, hrest]
          rw [if_pos har]
        · intro q hq
          rcases List.mem_cons.mp hq with rfl | hq'
          · exact le_refl _
          · exact le_trans har (hrmin q hq')
      · refine ⟨r, ?_, List.mem_cons_of_mem _ hrmem, ?_⟩
        · simp only [smallestBp, hrest]
          rw [if_neg har]
        · intro q hq
          rcases List.mem_cons.mp hq with rfl | hq'
          · omega
          · exact hrmin q hq'

/-- C2: for every non-empty breakpoints table and target width,
`getBreakpointFromWidth` returns a breakpoint with the largest min-width
among those with min-width at most the width, and when no breakpoint
qualifies it returns one with the smallest min-width; in particular for
breakpoints lg 1200, md 996, sm 768 and width 800 it returns sm. -/
theorem getBreakpointFromWidth_claim (bps : List (String × Int)) (width : Int)
    (hne : bps ≠ []) :
    ((∃ p ∈ bps, p.2 ≤ width) → ∃ p ∈ bps,
      getBreakpointFromWidth bps width = some p.1 ∧
      p.2 ≤ width ∧ ∀ q ∈ bps, q.2 ≤ width → q.2 ≤ p.2) ∧
    ((∀ p ∈ bps, width < p.2) → ∃ p ∈ bps,
      getBreakpointFromWidth bps width = some p.1 ∧ ∀ q ∈ bps, p.2 ≤ q.2) ∧
    getBreakpointFromWidth [("lg", 1200), ("md", 996), ("sm", 768)] 800 = some "sm" := by
  refine ⟨?_, ?_, by decide⟩
  · rintro ⟨p0, hp0, hp0w⟩
    cases hl : largestLE width bps with
    | none => exact absurd hp0w (largestLE_none width bps hl p0 hp0)
    | some p =>
      rcases largestLE_some width bps p hl with ⟨hmem, hw, hmax⟩
      refine ⟨p, hmem, ?_, hw, hmax⟩
      unfold getBreakpointFromWidth
      rw [hl]
  · intro hnone
    have hl : largestLE width bps = none := by
      cases hl : largestLE width bps with
      | none => rfl
      | some p =>
        rcases largestLE_some width bps p hl with ⟨hmem, hw, _⟩
        have := hnone p hmem
        omega
    rcases smallestBp_spec bps hne with ⟨p, hp, hmem, hmin⟩
    refine ⟨p, hmem, ?_, hmin⟩
    unfold getBreakpointFromWidth
    rw [hl, hp]
    rfl

/-- Witness: breakpoint resolution at the concrete scenario-B table
(lg 1200, md 996, sm 768) and width 800. -/
theorem getBreakpointFromWidth_claim_witness :
    ([(("lg" : String), (1200 : Int)), ("md", 996), ("sm", 768)] ≠
      ([] : List (String × Int))) ∧
    getBreakpointFromWidth [("lg", 1200), ("md", 996), ("sm", 768)] 800 = some "sm" :=
  ⟨by decide,
   (getBreakpointFromWidth_claim [("lg", 1200), ("md", 996), ("sm", 768)] 800
      (by decide)).2.2⟩

/-! ## Claim C3: drags commit the compacted move result -/

/-- C3: on every drag update and drag stop, in both the useGridLayout
composable and the GridLayout component, the layout committed to state and
the layouts carried by the emitted drag events are the result of passing
moveElement's output through the compactor's compact, never the raw
moveElement result. -/
theorem drag_commits_compacted_claim (cfg : UGLConfig) (st : UGLState)
    (gcfg : GLConfig) (gst : GLState) (id : String) (x y : Int)
    (item gitem a : LayoutItem)
    (hfind : getLayoutItem st.layout id = some item)
    (hgfind : getLayoutItem gst.internalLayout id = some gitem)
    (had : gst.activeDrag = some a) :
    (UGL.onDrag cfg st id x y).layout
      = cfg.compactor.compact (moveElement st.layout item x y true cfg.preventCollision
          cfg.compactor.type cfg.cols cfg.compactor.allowOverlap) cfg.cols ∧
    (UGL.onDragStop cfg st id x y).layout
      = cfg.compactor.compact (moveElement st.layout item x y true cfg.preventCollision
          cfg.compactor.type cfg.cols cfg.compactor.allowOverlap) cfg.cols ∧
    (GL.onDrag gcfg gst id x y).1.internalLayout
      = gcfg.compactor.compact (moveElement gst.internalLayout gitem x y true
          (gcfg.compactor.preventCollision.getD false) gcfg.compactor.type gcfg.cols
          gcfg.compactor.allowOverlap) gcfg.cols ∧
    (GL.onDragStop gcfg gst id x y).1.internalLayout
      = gcfg.compactor.compact (moveElement gst.internalLayout gitem x y true
          (gcfg.compactor.preventCollision.getD false) gcfg.compactor.type gcfg.cols
          gcfg.compactor.allowOverlap) gcfg.cols ∧
    (∀ L0 oi it ph, GLEvent.drag L0 oi it ph ∈ (GL.onDrag gcfg gst id x y).2 →
      L0 = gcfg.compactor.compact (moveElement gst.internalLayout gitem x y true
          (gcfg.compactor.preventCollision.getD false) gcfg.compactor.type gcfg.cols
          gcfg.compactor.allowOverlap) gcfg.cols) ∧
    (∀ L0 oi it, GLEvent.dragStop L0 oi it ∈ (GL.onDragStop gcfg gst id x y).2 →
      L0 = gcfg.compactor.compact (moveElement gst.internalLayout gitem x y true
          (gcfg.compactor.preventCollision.getD false) gcfg.compactor.type gcfg.cols
          gcfg.compactor.allowOverlap) gcfg.cols) := by
  refine ⟨?_, ?_, ?_, ?_, ?_, ?_⟩
  · simp [UGL.onDrag, hfind]
  · simp [UGL.onDragStop, hfind]
  · simp [GL.onDrag, hgfind]
  · simp [GL.onDragStop, hgfind, had]
  · intro L0 oi it ph hmem
    simp only [GL.onDrag, hgfind] at hmem
    simp only [List.mem_singleton, GLEvent.drag.injEq] at hmem
    exact hmem.1
  · intro L0 oi it hmem
    simp only [GL.onDragStop, hgfind, had] at hmem
    rcases List.mem_cons.mp hmem with hh | ht
    · simp only [GLEvent.dragStop.injEq] at hh
      exact hh.1
    · exfalso
      rcases hold : gst.oldLayout with _ | old
      · simp [hold] at ht
      · simp only [hold] at ht
        split at ht
        · simp at ht
        · simp at ht

/-- Witness: the drag-commit claim at a concrete one-item layout under the
default vertical compactor. -/
theorem drag_commits_compacted_claim_witness :
    getLayoutItem [mkItem "a" 0 0 2 2] "a" = some (mkItem "a" 0 0 2 2) ∧
    (UGL.onDrag ⟨12, false, verticalCompactor⟩
        ⟨[mkItem "a" 0 0 2 2], ⟨none, none, none⟩, ⟨false, none, none⟩, false⟩
        "a" 1 1).layout
      = verticalCompactor.compact
          (moveElement [mkItem "a" 0 0 2 2] (mkItem "a" 0 0 2 2) 1 1 true false
            verticalCompactor.type 12 verticalCompactor.allowOverlap) 12 :=
  ⟨by decide,
   (drag_commits_compacted_claim ⟨12, false, verticalCompactor⟩
      ⟨[mkItem "a" 0 0 2 2], ⟨none, none, none⟩, ⟨false, none, none⟩, false⟩
      ⟨12, verticalCompactor, true, true⟩
      ⟨[mkItem "a" 0 0 2 2], some (mkItem "a" 0 0 2 2), none, none, false, true⟩
      "a" 1 1 (mkItem "a" 0 0 2 2) (mkItem "a" 0 0 2 2) (mkItem "a" 0 0 2 2)
      (by decide) (by decide) (by decide)).1⟩

/-! ## Claim C4: unknown item ids are no-ops -/

/-- C4: drag and resize operations referencing an item id absent from the
layout leave the state unchanged, the start handlers signalling the miss
with a none result instead of throwing. -/
theorem unknown_id_noop_claim (cfg : UGLConfig) (st : UGLState)
    (gcfg : GLConfig) (gst : GLState) (id : String) (x y : Int)
    (hnone : getLayoutItem st.layout id = none)
    (hgnone : getLayoutItem gst.internalLayout id = none) :
    UGL.onDragStart st id x y = (st, none) ∧
    UGL.onDrag cfg st id x y = st ∧
    UGL.onDragStop cfg st id x y = st ∧
    UGL.onResizeStart st id = (st, none) ∧
    GL.onDrag gcfg gst id x y = (gst, []) := by
  refine ⟨?_, ?_, ?_, ?_, ?_⟩ <;>
    simp [UGL.onDragStart, UGL.onDrag, UGL.onDragStop, UGL.onResizeStart, GL.onDrag,
      hnone, hgnone]

/-- Witness: the unknown-id claim at a concrete layout and the absent id
zz. -/
theorem unknown_id_noop_claim_witness :
    getLayoutItem [mkItem "a" 0 0 2 2] "zz" = none ∧
    UGL.onDragStart
        ⟨[mkItem "a" 0 0 2 2], ⟨none, none, none⟩, ⟨false, none, none⟩, false⟩ "zz" 1 1
      = (⟨[mkItem "a" 0 0 2 2], ⟨none, none, none⟩, ⟨false, none, none⟩, false⟩, none) :=
  ⟨by decide,
   (unknown_id_noop_claim ⟨12, false, verticalCompactor⟩
      ⟨[mkItem "a" 0 0 2 2], ⟨none, none, none⟩, ⟨false, none, none⟩, false⟩
      ⟨12, verticalCompactor, true, true⟩
      ⟨[mkItem "a" 0 0 2 2], none, none, none, false, false⟩
      "zz" 1 1 (by decide) (by decide)).1⟩

/-! ## Claim C5: static and per-item drag/resize policy -/

/-- C5: a static item is neither draggable nor resizable regardless of any
other setting; for a non-static item a boolean per-item override wins and
the ambient grid policy applies only when the override is absent. -/
theorem item_flags_claim (cfg : GLConfig) (item : LayoutItem) :
    (item.static = true →
      isItemDraggable cfg item = false ∧ isItemResizable cfg item = false) ∧
    (item.static = false →
      (∀ b, item.isDraggable = some b → isItemDraggable cfg item = b) ∧
      (item.isDraggable = none → isItemDraggable cfg item = cfg.dragEnabled) ∧
      (∀ b, item.isResizable = some b → isItemResizable cfg item = b) ∧
      (item.isResizable = none → isItemResizable cfg item = cfg.resizeEnabled)) := by
  constructor
  · intro hst
    constructor <;> simp [isItemDraggable, isItemResizable, hst]
  · intro hst
    refine ⟨fun b hb => ?_, fun hb => ?_, fun b hb => ?_, fun hb => ?_⟩ <;>
      simp [isItemDraggable, isItemResizable, hst, hb]

/-- Witness: the flag-policy claim at a static item carrying a positive
per-item override (the override loses to static). -/
theorem item_flags_claim_witness :
    ((⟨"a", 0, 0, 1, 1, none, none, none, none, true, some true, some true, false⟩ :
        LayoutItem).static = true) ∧
    isItemDraggable ⟨12, verticalCompactor, true, true⟩
      ⟨"a", 0, 0, 1, 1, none, none, none, none, true, some true, some true, false⟩ = false ∧
    isItemResizable ⟨12, verticalCompactor, true, true⟩
      ⟨"a", 0, 0, 1, 1, none, none, none, none, true, some true, some true, false⟩ = false :=
  ⟨rfl,
   (item_flags_claim ⟨12, verticalCompactor, true, true⟩
      ⟨"a", 0, 0, 1, 1, none, none, none, none, true, some true, some true, false⟩).1 rfl⟩

/-! ## Claim C6: resize-handle position adjustment -/

/-- C6: for west handles the adjusted x is the item's x minus the width
delta, keeping the right edge x plus w fixed; for north handles the
adjusted y keeps the bottom edge fixed; all other handles leave the
coordinates undefined, and with no adjustments the resized item keeps its
position. -/
theorem resize_position_claim (item : LayoutItem) (newW newH : Int)
    (handle : ResizeHandle) :
    ((handle = ResizeHandle.w ∨ handle = ResizeHandle.nw ∨ handle = ResizeHandle.sw) →
      (calculateResizePosition item newW newH handle).1
        = some (item.x - (newW - item.w)) ∧
      (item.x - (newW - item.w)) + newW = item.x + item.w) ∧
    (¬(handle = ResizeHandle.w ∨ handle = ResizeHandle.nw ∨ handle = ResizeHandle.sw) →
      (calculateResizePosition item newW newH handle).1 = none) ∧
    ((handle = ResizeHandle.n ∨ handle = ResizeHandle.nw ∨ handle = ResizeHandle.ne) →
      (calculateResizePosition item newW newH handle).2
        = some (item.y - (newH - item.h)) ∧
      (item.y - (newH - item.h)) + newH = item.y + item.h) ∧
    (¬(handle = ResizeHandle.n ∨ handle = ResizeHandle.nw ∨ handle = ResizeHandle.ne) →
      (calculateResizePosition item newW newH handle).2 = none) ∧
    ((resizedItem item newW newH none none).x = item.x ∧
      (resizedItem item newW newH none none).y = item.y) := by
  refine ⟨?_, ?_, ?_, ?_, rfl, rfl⟩ <;> intro h <;>
    cases handle <;> simp_all [calculateResizePosition] <;> omega

/-- Witness: the handle-adjustment claim at a west-handle resize from
width two to width three, and a south-east resize leaving x undefined. -/
theorem resize_position_claim_witness :
    (calculateResizePosition (mkItem "a" 4 3 2 2) 3 2 ResizeHandle.w).1 = some 3 ∧
    (calculateResizePosition (mkItem "a" 4 3 2 2) 3 2 ResizeHandle.se).1 = none := by
  constructor
  · have h := (resize_position_claim (mkItem "a" 4 3 2 2) 3 2 ResizeHandle.w).1 (Or.inl rfl)
    simpa using h.1
  · exact (resize_position_claim (mkItem "a" 4 3 2 2) 3 2 ResizeHandle.se).2.1 (by simp)

/-! ## Claim C9: the drag placeholder never enters the layout -/

/-- C9: the transient drag placeholder is held only in the drag state:
starting a drag leaves the layout unchanged and stores the placeholder in
activeDrag, every layout committed or emitted by the drag-stop handler is
exactly the compacted moveElement result, and activeDrag is reset to none
when the drag stops. -/
theorem placeholder_only_in_drag_state_claim (cfg : UGLConfig) (ust : UGLState)
    (gcfg : GLConfig) (gst : GLState) (id : String) (x y : Int)
    (ul l a : LayoutItem)
    (hufind : getLayoutItem ust.layout id = some ul)
    (hgfind : getLayoutItem gst.internalLayout id = some l)
    (had : gst.activeDrag = some a) :
    (UGL.onDragStart ust id x y).1.layout = ust.layout ∧
    (UGL.onDragStart ust id x y).1.dragState.activeDrag
      = some {cloneLayoutItem ul with x := x, y := y, static := false, moved := false} ∧
    (UGL.onDragStop cfg ust id x y).dragState.activeDrag = none ∧
    (GL.onDragStart gst id).1.internalLayout = gst.internalLayout ∧
    (GL.onDragStart gst id).1.activeDrag = some (mkItem l.i l.x l.y l.w l.h) ∧
    (GL.onDragStop gcfg gst id x y).1.activeDrag = none ∧
    (GL.onDragStop gcfg gst id x y).1.internalLayout
      = gcfg.compactor.compact (moveElement gst.internalLayout l x y true
          (gcfg.compactor.preventCollision.getD false) gcfg.compactor.type gcfg.cols
          gcfg.compactor.allowOverlap) gcfg.cols ∧
    (∀ L0, GLEvent.updateLayout L0 ∈ (GL.onDragStop gcfg gst id x y).2 →
      L0 = gcfg.compactor.compact (moveElement gst.internalLayout l x y true
          (gcfg.compactor.preventCollision.getD false) gcfg.compactor.type gcfg.cols
          gcfg.compactor.allowOverlap) gcfg.cols) ∧
    (∀ L0, GLEvent.layoutChange L0 ∈ (GL.onDragStop gcfg gst id x y).2 →
      L0 = gcfg.compactor.compact (moveElement gst.internalLayout l x y true
          (gcfg.compactor.preventCollision.getD false) gcfg.compactor.type gcfg.cols
          gcfg.compactor.allowOverlap) gcfg.cols) := by
  refine ⟨?_, ?_, ?_, ?_, ?_, ?_, ?_, ?_, ?_⟩
  · simp [UGL.onDragStart, hufind]
  · simp [UGL.onDragStart, hufind]
  · simp [UGL.onDragStop, hufind]
  · simp [GL.onDragStart, hgfind]
  · simp [GL.onDragStart, hgfind]
  · simp [GL.onDragStop, hgfind, had]
  · simp [GL.onDragStop, hgfind, had]
  · intro L0 hL
    simp only [GL.onDragStop, hgfind, had] at hL
    rcases hold : gst.oldLayout with _ | old
    · simp [hold] at hL
    · simp only [hold] at hL
      rcases List.mem_cons.mp hL with hbad | hL'
      · cases hbad
      · split at hL'
        · simpa using hL'
        · cases hL'
  · intro L0 hL
    simp only [GL.onDragStop, hgfind, had] at hL
    rcases hold : gst.oldLayout with _ | old
    · simp [hold] at hL
    · simp only [hold] at hL
      rcases List.mem_cons.mp hL with hbad | hL'
      · cases hbad
      · split at hL'
        · simpa using hL'
        · cases hL'

/-- Witness: the placeholder claim at a concrete one-item layout with the
drag in progress. -/
theorem placeholder_only_in_drag_state_claim_witness :
    getLayoutItem [mkItem "a" 0 0 2 2] "a" = some (mkItem "a" 0 0 2 2) ∧
    (UGL.onDragStart
        ⟨[mkItem "a" 0 0 2 2], ⟨none, none, none⟩, ⟨false, none, none⟩, false⟩
        "a" 3 4).1.layout = [mkItem "a" 0 0 2 2] :=
  ⟨by decide,
   (placeholder_only_in_drag_state_claim ⟨12, false, verticalCompactor⟩
      ⟨[mkItem "a" 0 0 2 2], ⟨none, none, none⟩, ⟨false, none, none⟩, false⟩
      ⟨12, verticalCompactor, true, true⟩
      ⟨[mkItem "a" 0 0 2 2], some (mkItem "a" 0 0 1 1), none,
        some [mkItem "a" 0 0 2 2], false, true⟩
      "a" 3 4 (mkItem "a" 0 0 2 2) (mkItem "a" 0 0 2 2) (mkItem "a" 0 0 1 1)
      (by decide) (by decide) (by decide)).1⟩

/-! ## Claim C10: the responsive width watcher's frame property -/

/-- C10: in useResponsiveLayout's width watcher, a width change whose
resolved breakpoint equals the current one leaves breakpoint, cols and
layouts unchanged and only fires the width-change callback; and in
general breakpoint and cols are only ever updated together, to the pair
derived from the same new width. -/
theorem responsive_width_watcher_claim (cfg : URLConfig) (st : URLState)
    (newWidth ncols : Int)
    (hw : ¬(st.prevWidth = newWidth))
    (hbp : getBreakpointFromWidth cfg.breakpoints newWidth = some st.breakpoint)
    (hc : getColsFromBreakpoint st.breakpoint cfg.colsConfig = some ncols) :
    URL.widthWatcher cfg st newWidth
      = some ({st with prevWidth := newWidth}, [URLEvent.widthChange newWidth ncols]) ∧
    (∀ (st2 : URLState) (w2 : Int) (st' : URLState) (evs : List URLEvent),
      URL.widthWatcher cfg st2 w2 = some (st', evs) →
      (st'.breakpoint = st2.breakpoint ∧ st'.cols = st2.cols ∧ st'.layouts = st2.layouts) ∨
      (getBreakpointFromWidth cfg.breakpoints w2 = some st'.breakpoint ∧
        getColsFromBreakpoint st'.breakpoint cfg.colsConfig = some st'.cols)) := by
  constructor
  · simp [URL.widthWatcher, hw, hbp, hc]
  · intro st2 w2 st' evs h
    by_cases hpw : st2.prevWidth = w2
    · simp only [URL.widthWatcher, if_pos hpw, Option.some.injEq, Prod.mk.injEq] at h
      left
      rw [← h.1]
      exact ⟨rfl, rfl, rfl⟩
    · simp only [URL.widthWatcher, if_neg hpw] at h
      split at h
      · cases h
      · rename_i nb hb2
        split at h
        · cases h
        · rename_i nc hc2
          split at h
          · right
            simp only [Option.some.injEq, Prod.mk.injEq] at h
            rw [← h.1]
            exact ⟨hb2, hc2⟩
          · left
            simp only [Option.some.injEq, Prod.mk.injEq] at h
            rw [← h.1]
            exact ⟨rfl, rfl, rfl⟩

/-- Witness: the width watcher at width 800 with current breakpoint sm
(thresholds lg 1200, sm 768; column counts lg 12, sm 6) and stale previous
width 700. -/
theorem responsive_width_watcher_claim_witness :
    (¬((700 : Int) = 800)) ∧
    URL.widthWatcher
        ⟨[("lg", 1200), ("sm", 768)], [("lg", 12), ("sm", 6)], verticalCompactor⟩
        ⟨"sm", 6, [], 700, "sm"⟩ 800
      = some (⟨"sm", 6, [], 800, "sm"⟩, [URLEvent.widthChange 800 6]) :=
  ⟨by decide,
   (responsive_width_watcher_claim
      ⟨[("lg", 1200), ("sm", 768)], [("lg", 12), ("sm", 6)], verticalCompactor⟩
      ⟨"sm", 6, [], 700, "sm"⟩ 800 6 (by decide) (by decide) (by decide)).1⟩

/-! ## Claim C8: breakpoint changes re-bound and compact the new layout -/

/-- C8: on every breakpoint change of the ResponsiveGridLayout width
watcher, the layout produced by findOrGenerateResponsiveLayout is passed
through correctBounds with the new column count and then through the
compactor's compact before it is stored as the current layout, saved under
the new breakpoint, and emitted to the caller. -/
theorem responsive_breakpoint_change_claim (comp : Compactor) (st : RGLState)
    (newWidth : Int) (nbpp : Option String) (nbps ncfg : List (String × Int))
    (newBreakpoint : String) (newCols : Int)
    (hwc : newWidth ≠ st.prevWidth)
    (hbp : (match nbpp with
            | some b => some b
            | none => getBreakpointFromWidth nbps newWidth) = some newBreakpoint)
    (hcols : getColsFromBreakpoint newBreakpoint ncfg = some newCols)
    (hdiff : st.currentBreakpoint ≠ newBreakpoint) :
    (let preserved :=
       if st.internalLayouts.any (fun p => p.1 = st.currentBreakpoint)
       then st.internalLayouts
       else st.internalLayouts ++ [(st.currentBreakpoint, cloneLayout st.currentLayout)]
     let generated := findOrGenerateResponsiveLayout preserved newBreakpoint
       st.currentBreakpoint newCols st.currentCols comp
     let newLayout := comp.compact (correctBounds generated newCols) newCols
     let newLayouts := setLayoutEntry preserved newBreakpoint newLayout
     RGL.widthWatcher comp st newWidth nbpp nbps ncfg
       = some
          ({currentBreakpoint := newBreakpoint,
            currentCols := newCols,
            currentLayout := newLayout,
            internalLayouts := newLayouts,
            prevWidth := newWidth,
            prevBreakpointProp := nbpp,
            prevBreakpoints := nbps,
            prevColsConfig := ncfg},
           [RGLEvent.breakpointChange newBreakpoint newCols,
            RGLEvent.layoutChange newLayout newLayouts,
            RGLEvent.updateLayouts newLayouts,
            RGLEvent.widthChange newWidth newCols])) := by
  simp only [RGL.widthWatcher]
  rw [if_pos (by simp [hwc])]
  split
  · rename_i heq
    rw [hbp] at heq
    cases heq
  · rename_i nb heq
    rw [hbp] at heq
    have hnb : nb = newBreakpoint := by
      simpa using heq.symm
    subst hnb
    split
    · rename_i heq2
      rw [hcols] at heq2
      cases heq2
    · rename_i nc heq2
      rw [hcols] at heq2
      have hnc : nc = newCols := by
        simpa using heq2.symm
      subst hnc
      rw [if_pos (by simp [fun h => hdiff h])]

/-- Witness: a breakpoint change from lg (1300 px wide) to sm (800 px) with
one stored item, under the default vertical compactor. -/
theorem responsive_breakpoint_change_claim_witness :
    ((800 : Int) ≠ 1300) ∧
    (let st : RGLState := ⟨"lg", 12, [mkItem "a" 0 0 2 2], [], 1300, none,
        [("lg", 1200), ("sm", 768)], [("lg", 12), ("sm", 6)]⟩
     let preserved :=
       if st.internalLayouts.any (fun p => p.1 = st.currentBreakpoint)
       then st.internalLayouts
       else st.internalLayouts ++ [(st.currentBreakpoint, cloneLayout st.currentLayout)]
     let generated := findOrGenerateResponsiveLayout preserved "sm"
       st.currentBreakpoint 6 st.currentCols verticalCompactor
     let newLayout := verticalCompactor.compact (correctBounds generated 6) 6
     let newLayouts := setLayoutEntry preserved "sm" newLayout
     RGL.widthWatcher verticalCompactor st 800 none [("lg", 1200), ("sm", 768)]
         [("lg", 12), ("sm", 6)]
       = some
          ({currentBreakpoint := "sm", currentCols := 6, currentLayout := newLayout,
            internalLayouts := newLayouts, prevWidth := 800, prevBreakpointProp := none,
            prevBreakpoints := [("lg", 1200), ("sm", 768)],
            prevColsConfig := [("lg", 12), ("sm", 6)]},
           [RGLEvent.breakpointChange "sm" 6, RGLEvent.layoutChange newLayout newLayouts,
            RGLEvent.updateLayouts newLayouts, RGLEvent.widthChange 800 6])) :=
  ⟨by decide,
   responsive_breakpoint_change_claim verticalCompactor
     ⟨"lg", 12, [mkItem "a" 0 0 2 2], [], 1300, none,
       [("lg", 1200), ("sm", 768)], [("lg", 12), ("sm", 6)]⟩
     800 none [("lg", 1200), ("sm", 768)] [("lg", 12), ("sm", 6)] "sm" 6
     (by decide) (by decide) (by decide) (by decide)⟩

/-! ## Claim C7: resize clamping to item min/max bounds -/

theorem forall2_refl {R : LayoutItem → LayoutItem → Prop} (h : ∀ a, R a a) :
    ∀ l : List LayoutItem, List.Forall₂ R l l := by
  intro l
  induction l with
  | nil => exact List.Forall₂.nil
  | cons a t ih => exact List.Forall₂.cons (h a) ih

theorem forall2_trans {R : LayoutItem → LayoutItem → Prop}
    (hR : ∀ a b c, R a b → R b c → R a c) :
    ∀ {l m n : List LayoutItem}, List.Forall₂ R l m → List.Forall₂ R m n →
      List.Forall₂ R l n := by
  intro l m n h1
  induction h1 generalizing n with
  | nil =>
    intro h2
    cases h2
    exact List.Forall₂.nil
  | cons hab htail ih =>
    intro h2
    cases h2 with
    | cons hbc htail2 => exact List.Forall₂.cons (hR _ _ _ hab hbc) (ih htail2)

theorem keepMoved_trans (a b c : LayoutItem) (h1 : keepMoved a b) (h2 : keepMoved b c) :
    keepMoved a c := by
  refine ⟨h2.1.trans h1.1, fun hm => ?_⟩
  have hba := h1.2 hm
  have hcb := h2.2 (by rw [hba]; exact hm)
  rw [hcb, hba]

theorem axisStep_id (ct : CompactType) (o : LayoutItem) : (axisStep ct o).i = o.i := by
  cases ct <;> rfl

theorem displaceFirst_forall2 (ct : CompactType) (p : LayoutItem → Bool)
    (hp : ∀ o, p o = true → o.moved = false) :
    ∀ (ly : List LayoutItem) (r : LayoutItem × List LayoutItem),
      displaceFirst ct p ly = some r → List.Forall₂ keepMoved ly r.2 := by
  intro ly
  induction ly with
  | nil =>
    intro r h
    cases h
  | cons o rest ih =>
    intro r h
    unfold displaceFirst at h
    by_cases hpo : p o = true
    · rw [if_pos hpo] at h
      have h2 : (axisStep ct o, axisStep ct o :: rest) = r := by simpa using h
      rw [← h2]
      refine List.Forall₂.cons ⟨axisStep_id ct o, fun hm => ?_⟩
        (forall2_refl (fun a => ⟨rfl, fun _ => rfl⟩) rest)
      rw [hp o hpo] at hm
      cases hm
    · rw [if_neg hpo] at h
      cases hrec : displaceFirst ct p rest with
      | none =>
        rw [hrec] at h
        cases h
      | some r2 =>
        rw [hrec] at h
        have h2 : (r2.1, o :: r2.2) = r := by simpa using h
        rw [← h2]
        exact List.Forall₂.cons ⟨rfl, fun _ => rfl⟩ (ih r2 hrec)

theorem resolveWork_forall2 (ct : CompactType) :
    ∀ (fuel : Nat) (work ly : List LayoutItem),
      List.Forall₂ keepMoved ly (resolveWork ct fuel ly work) := by
  intro fuel
  induction fuel with
  | zero =>
    intro work ly
    exact forall2_refl (fun a => ⟨rfl, fun _ => rfl⟩) ly
  | succ n ih =>
    intro work ly
    cases work with
    | nil => exact forall2_refl (fun a => ⟨rfl, fun _ => rfl⟩) ly
    | cons it work' =>
      cases hd : displaceFirst ct (fun o => collides o it && !o.static && !o.moved) ly with
      | none =>
        have heq : resolveWork ct (n + 1) ly (it :: work') = resolveWork ct n ly work' := by
          simp only [resolveWork, hd]
        rw [heq]
        exact ih work' ly
      | some r =>
        have heq : resolveWork ct (n + 1) ly (it :: work')
            = resolveWork ct n r.2 (it :: work' ++ [r.1]) := by
          simp only [resolveWork, hd]
        rw [heq]
        have hp : ∀ o, (collides o it && !o.static && !o.moved) = true → o.moved = false := by
          intro o h
          simp only [Bool.and_eq_true, Bool.not_eq_true'] at h
          exact h.2
        exact forall2_trans keepMoved_trans (displaceFirst_forall2 ct _ hp ly r hd)
          (ih (it :: work' ++ [r.1]) r.2)

theorem map_replace_find (layout : List LayoutItem) (idv : String) (target : LayoutItem)
    (htid : target.i = idv) :
    ∀ l0, layout.find? (fun o => o.i = idv) = some l0 →
      (layout.map (fun o => if o.i = idv then target else o)).find? (fun o => o.i = idv)
        = some target := by
  induction layout with
  | nil =>
    intro l0 h
    cases h
  | cons o rest ih =>
    intro l0 hfind
    by_cases ho : o.i = idv
    · simp only [List.map_cons, if_pos ho]
      rw [List.find?_cons_of_pos _ (by simpa using htid)]
    · simp only [List.map_cons, if_neg ho]
      rw [List.find?_cons_of_neg _ (by simpa using ho)]
      rw [List.find?_cons_of_neg _ (by simpa using ho)] at hfind
      exact ih l0 hfind

theorem find?_map_pointwise (f : LayoutItem → LayoutItem)
    (hf : ∀ o, (f o).i = o.i) (idv : String) :
    ∀ l : List LayoutItem, (l.map f).find? (fun o => o.i = idv)
      = (l.find? (fun o => o.i = idv)).map f := by
  intro l
  induction l with
  | nil => rfl
  | cons o rest ih =>
    by_cases ho : o.i = idv
    · simp only [List.map_cons]
      rw [List.find?_cons_of_pos _ (by simp only [hf o]; simpa using ho),
          List.find?_cons_of_pos _ (by simpa using ho)]
      rfl
    · simp only [List.map_cons]
      rw [List.find?_cons_of_neg _ (by simp only [hf o]; simpa using ho),
          List.find?_cons_of_neg _ (by simpa using ho)]
      exact ih

/-- C7 (amended): in GridLayout.vue's onResize, the proposed width and
height pass through `resizeElement`, which clamps them to the item's
min/max bounds before collision resolution, so the committed size stays
within the bounds (for coherent bounds within the grid); the useGridLayout
composable's onResize has no such clamp. -/
theorem resize_clamps_bounds_amended (gcfg : GLConfig) (gst : GLState) (id : String)
    (w h : Int) (handle : ResizeHandle) (l : LayoutItem) (a b c d : Int)
    (hnd : (gst.internalLayout.map (fun o => o.i)).Nodup)
    (hfind : getLayoutItem gst.internalLayout id = some l)
    (hstatic : l.static = false)
    (hpc : gcfg.compactor.preventCollision = none)
    (hov : gcfg.compactor.allowOverlap = false)
    (hcc : gcfg.compactor.compact = compact)
    (hminw : l.minW = some a) (hmaxw : l.maxW = some b)
    (hminh : l.minH = some c) (hmaxh : l.maxH = some d)
    (ha1 : 1 ≤ a) (hab : a ≤ b) (hacols : a ≤ gcfg.cols)
    (hc1 : 1 ≤ c) (hcd : c ≤ d) :
    ∃ p, getLayoutItem (GL.onResize gcfg gst id w h handle).1.internalLayout id = some p ∧
      a ≤ p.w ∧ p.w ≤ b ∧ c ≤ p.h ∧ p.h ≤ d := by
  have hlid : l.i = id := by
    have := List.find?_some hfind
    simpa using this
  have hfind' : gst.internalLayout.find? (fun o => o.i = l.i) = some l := by
    rw [hlid]
    exact hfind
  have htw : (resizedItem l w h (calculateResizePosition l w h handle).1
      (calculateResizePosition l w h handle).2).w = min (max w a) b := by
    show clampOpt w l.minW l.maxW = min (max w a) b
    rw [hminw, hmaxw]
    rfl
  have hth : (resizedItem l w h (calculateResizePosition l w h handle).1
      (calculateResizePosition l w h handle).2).h = min (max h c) d := by
    show clampOpt h l.minH l.maxH = min (max h c) d
    rw [hminh, hmaxh]
    rfl
  have hglr : (GL.onResize gcfg gst id w h handle).1.internalLayout
      = gcfg.compactor.compact (correctBounds (resizeElement gst.internalLayout l w h
          (calculateResizePosition l w h handle).1 (calculateResizePosition l w h handle).2
          true (gcfg.compactor.preventCollision.getD false) gcfg.compactor.type gcfg.cols
          gcfg.compactor.allowOverlap) gcfg.cols) gcfg.cols := by
    simp [GL.onResize, hfind]
  have hre : resizeElement gst.internalLayout l w h
      (calculateResizePosition l w h handle).1 (calculateResizePosition l w h handle).2
      true (gcfg.compactor.preventCollision.getD false) gcfg.compactor.type gcfg.cols
      gcfg.compactor.allowOverlap
      = resolveWork gcfg.compactor.type
          ((gst.internalLayout.length + 1) * (gst.internalLayout.length + 1))
          (gst.internalLayout.map (fun o => if o.i = l.i then
            resizedItem l w h (calculateResizePosition l w h handle).1
              (calculateResizePosition l w h handle).2 else o))
          [resizedItem l w h (calculateResizePosition l w h handle).1
            (calculateResizePosition l w h handle).2] := by
    rw [hpc, hov]
    simp [resizeElement, hstatic]
  have hfind1 : (gst.internalLayout.map (fun o => if o.i = l.i then
      resizedItem l w h (calculateResizePosition l w h handle).1
        (calculateResizePosition l w h handle).2 else o)).find? (fun o => o.i = l.i)
      = some (resizedItem l w h (calculateResizePosition l w h handle).1
          (calculateResizePosition l w h handle).2) :=
    map_replace_find gst.internalLayout l.i _ rfl l hfind'
  have hfind2 : (resolveWork gcfg.compactor.type
      ((gst.internalLayout.length + 1) * (gst.internalLayout.length + 1))
      (gst.internalLayout.map (fun o => if o.i = l.i then
        resizedItem l w h (calculateResizePosition l w h handle).1
          (calculateResizePosition l w h handle).2 else o))
      [resizedItem l w h (calculateResizePosition l w h handle).1
        (calculateResizePosition l w h handle).2]).find? (fun o => o.i = l.i)
      = some (resizedItem l w h (calculateResizePosition l w h handle).1
          (calculateResizePosition l w h handle).2) := by
    rcases find?_of_forall2 (fun x y hxy => hxy.1) l.i
      (resolveWork_forall2 gcfg.compactor.type _ _ _) hfind1 with ⟨p2, hp2, hk2⟩
    have hp2t : p2 = resizedItem l w h (calculateResizePosition l w h handle).1
        (calculateResizePosition l w h handle).2 := hk2.2 rfl
    rw [hp2t] at hp2
    exact hp2
  have hfind3 : (correctBounds (resolveWork gcfg.compactor.type
      ((gst.internalLayout.length + 1) * (gst.internalLayout.length + 1))
      (gst.internalLayout.map (fun o => if o.i = l.i then
        resizedItem l w h (calculateResizePosition l w h handle).1
          (calculateResizePosition l w h handle).2 else o))
      [resizedItem l w h (calculateResizePosition l w h handle).1
        (calculateResizePosition l w h handle).2]) gcfg.cols).find? (fun o => o.i = l.i)
      = some (correctItem gcfg.cols (resizedItem l w h
          (calculateResizePosition l w h handle).1
          (calculateResizePosition l w h handle).2)) := by
    show ((resolveWork _ _ _ _).map (correctItem gcfg.cols)).find? (fun o => o.i = l.i) = _
    rw [find?_map_pointwise (correctItem gcfg.cols) (fun o => rfl) l.i, hfind2]
    rfl
  have hids1 : ((gst.internalLayout.map (fun o => if o.i = l.i then
      resizedItem l w h (calculateResizePosition l w h handle).1
        (calculateResizePosition l w h handle).2 else o)).map (fun o => o.i))
      = gst.internalLayout.map (fun o => o.i) := by
    rw [List.map_map]
    apply List.map_congr_left
    intro o _
    show (if o.i = l.i then resizedItem l w h (calculateResizePosition l w h handle).1
      (calculateResizePosition l w h handle).2 else o).i = o.i
    by_cases ho : o.i = l.i
    · rw [if_pos ho]
      show l.i = o.i
      exact ho.symm
    · rw [if_neg ho]
  have hndcorr : ((correctBounds (resolveWork gcfg.compactor.type
      ((gst.internalLayout.length + 1) * (gst.internalLayout.length + 1))
      (gst.internalLayout.map (fun o => if o.i = l.i then
        resizedItem l w h (calculateResizePosition l w h handle).1
          (calculateResizePosition l w h handle).2 else o))
      [resizedItem l w h (calculateResizePosition l w h handle).1
        (calculateResizePosition l w h handle).2]) gcfg.cols).map (fun o => o.i)).Nodup := by
    rw [correctBounds_ids,
      forall2_ids (fun x y hxy => hxy.1) (resolveWork_forall2 gcfg.compactor.type _ _ _),
      hids1]
    exact hnd
  rw [hglr, hre, hcc]
  unfold getLayoutItem
  rw [← hlid]
  rcases find?_of_forall2 (R := fun x y => y = {x with y := y.y, moved := false})
    (fun x y hxy => by rw [hxy]) l.i
    (compact_forall2 _ gcfg.cols hndcorr) hfind3 with ⟨p, hp, hpeq⟩
  refine ⟨p, hp, ?_, ?_, ?_, ?_⟩
  · have hpw : p.w = clampInt (min (max w a) b) 1 gcfg.cols := by
      rw [hpeq]
      show clampInt (resizedItem l w h (calculateResizePosition l w h handle).1
        (calculateResizePosition l w h handle).2).w 1 gcfg.cols = _
      rw [htw]
    rw [hpw]
    simp only [clampInt, max_def, min_def]
    split_ifs <;> omega
  · have hpw : p.w = clampInt (min (max w a) b) 1 gcfg.cols := by
      rw [hpeq]
      show clampInt (resizedItem l w h (calculateResizePosition l w h handle).1
        (calculateResizePosition l w h handle).2).w 1 gcfg.cols = _
      rw [htw]
    rw [hpw]
    simp only [clampInt, max_def, min_def]
    split_ifs <;> omega
  · have hph : p.h = max (min (max h c) d) 1 := by
      rw [hpeq]
      show max (resizedItem l w h (calculateResizePosition l w h handle).1
        (calculateResizePosition l w h handle).2).h 1 = _
      rw [hth]
    rw [hph]
    simp only [max_def, min_def]
    split_ifs <;> omega
  · have hph : p.h = max (min (max h c) d) 1 := by
      rw [hpeq]
      show max (resizedItem l w h (calculateResizePosition l w h handle).1
        (calculateResizePosition l w h handle).2).h 1 = _
      rw [hth]
    rw [hph]
    simp only [max_def, min_def]
    split_ifs <;> omega

/-- C7 (counterexample): the useGridLayout composable's onResize writes the
proposed width through unchanged, so an item with maxW two commits width
five: the claim that every resize operation clamps to the item's min/max
bounds fails on this path. -/
theorem resize_clamps_bounds_counterexample :
    ((UGL.onResize ⟨12, false, verticalCompactor⟩
        ⟨[⟨"a", 0, 0, 1, 1, some 1, some 2, some 1, some 2, false, none, none, false⟩],
          ⟨none, none, none⟩, ⟨false, none, none⟩, false⟩
        "a" 5 1 none none).layout.find? (fun o => o.i = "a")).map (fun o => (o.w, o.maxW))
      = some (5, some 2) ∧ ¬((5 : Int) ≤ 2) := by
  decide

/-- Witness: the amended claim at a one-item layout with bounds one to two,
resized to width five through the component path (the committed width stays
within the bounds). -/
theorem resize_clamps_bounds_amended_witness :
    ((([⟨"a", 0, 0, 1, 1, some 1, some 2, some 1, some 2, false, none, none, false⟩] :
        List LayoutItem).map (fun o => o.i)).Nodup) ∧
    ∃ p, getLayoutItem (GL.onResize ⟨12, verticalCompactor, true, true⟩
        ⟨[⟨"a", 0, 0, 1, 1, some 1, some 2, some 1, some 2, false, none, none, false⟩],
          none, none, none, false, false⟩ "a" 5 1 ResizeHandle.se).1.internalLayout "a"
      = some p ∧ 1 ≤ p.w ∧ p.w ≤ 2 ∧ 1 ≤ p.h ∧ p.h ≤ 2 :=
  ⟨by decide,
   resize_clamps_bounds_amended ⟨12, verticalCompactor, true, true⟩
     ⟨[⟨"a", 0, 0, 1, 1, some 1, some 2, some 1, some 2, false, none, none, false⟩],
       none, none, none, false, false⟩ "a" 5 1 ResizeHandle.se
     ⟨"a", 0, 0, 1, 1, some 1, some 2, some 1, some 2, false, none, none, false⟩
     1 2 1 2 (by decide) (by decide) rfl rfl rfl rfl rfl rfl rfl rfl
     (by decide) (by decide) (by decide) (by decide) (by decide)⟩
